import Mathlib

/-!
# Formal model of the Backr settlement / lending core

A shallow embedding of the Backr backend (the relational-store state and the
operations of `src/backend/services.ts`, the garnishment callback and the
HTTP endpoints of the express server, and the `BankClient` session state
machine) together with proofs of the behavioural claims about it.

Conventions of the embedding:
* the relational store (tables `users`, `vouches`, `debts`, `payments`,
  `credit_history`) is a record of lists; a supabase `update ... eq(id)` is a
  `List.map` guarded on the key, an `insert` is an append, a `select ... single`
  is `List.find?`;
* monetary amounts are naturals (the schema constrains `amount_owed >= 0`,
  `current_usage >= 0`, `limit_amount > 0`); the JavaScript idiom
  `Math.max(0, a - b)` on such values is exactly truncated subtraction `a - b`
  on naturals; credit scores are integers (deltas can be negative before
  clamping);
* addresses are strings, already lowercased (every entry point lowercases
  them before touching the store);
* timestamps are naturals (milliseconds); `new Date(x) >= new Date()` becomes
  `now ≤ x`;
* calls to the external Status Oracle (`ContractService.*`) have no effect on
  the store and are omitted; console logging is omitted;
* the reason strings passed to `updateCreditScore` (such as
  "Late payment on debt #id") are represented by the structured type
  `ScoreReason`, which records exactly the data interpolated into them.
-/

namespace Backr

/-- Credit score constants from `src/backend/types.ts` (`CREDIT_SCORE`). -/
def SCORE_MIN : Int := 300

/-- `CREDIT_SCORE.MAX`. -/
def SCORE_MAX : Int := 900

/-- `CREDIT_SCORE.DEFAULT`. -/
def SCORE_DEFAULT : Int := 650

/-- `CREDIT_SCORE.ENS_STRIP_THRESHOLD`. -/
def ENS_STRIP_THRESHOLD : Int := 400

/-- `CREDIT_SCORE.LATE_PAYMENT_PENALTY`. -/
def LATE_PAYMENT_PENALTY : Int := 25

/-- `CREDIT_SCORE.DEFAULT_PENALTY`. -/
def DEFAULT_PENALTY : Int := 50

/-- `CREDIT_SCORE.ON_TIME_BONUS`. -/
def ON_TIME_BONUS : Int := 10

/-- Debt status column: `status IN ('active', 'paid', 'overdue', 'defaulted')`. -/
inductive DebtStatus where
  | active
  | paid
  | overdue
  | defaulted
deriving DecidableEq

/-- Payment kind column: `payment_type IN ('garnish', 'manual', 'full')`. -/
inductive PaymentType where
  | garnish
  | manual
  | full
deriving DecidableEq

/-- Structured form of the reason strings passed to `updateCreditScore`:
`latePayment id` stands for "Late payment on debt #id" (overdue sweep),
`defaultPenalty id` for "Defaulted on debt #id" (`markDebtDefaulted`),
`onTimePayoff id` for "Paid off debt #id on time" (repayment / garnishment). -/
inductive ScoreReason where
  | latePayment (debtId : Nat)
  | defaultPenalty (debtId : Nat)
  | onTimePayoff (debtId : Nat)
deriving DecidableEq

/-- A row of the `users` table (the columns the core logic touches). -/
structure UserRow where
  wallet_address : String
  credit_score : Int
  ens_stripped : Bool
  garnish_percentage : Nat
  auto_repay_enabled : Bool
deriving DecidableEq

/-- A row of the `vouches` table. -/
structure Vouch where
  id : Nat
  voucher_address : String
  borrower_address : String
  limit_amount : Nat
  current_usage : Nat
  is_active : Bool
deriving DecidableEq

/-- A row of the `debts` table. -/
structure Debt where
  id : Nat
  borrower_address : String
  lender_address : String
  vouch_id : Option Nat
  original_amount : Nat
  amount_owed : Nat
  due_date : Nat
  status : DebtStatus
  paid_at : Option Nat
deriving DecidableEq

/-- A row of the `payments` table. -/
structure Payment where
  debt_id : Nat
  amount : Nat
  payment_type : PaymentType
deriving DecidableEq

/-- A row of the `credit_history` table. -/
structure CreditHistoryEntry where
  wallet_address : String
  old_score : Int
  new_score : Int
  reason : ScoreReason
deriving DecidableEq

/-- The relational store. -/
structure DB where
  users : List UserRow
  vouches : List Vouch
  debts : List Debt
  payments : List Payment
  credit_history : List CreditHistoryEntry
deriving DecidableEq

/-- `select * from users where wallet_address = addr single`. -/
def findUser (db : DB) (addr : String) : Option UserRow :=
  db.users.find? (fun u => decide (u.wallet_address = addr))

/-- The stored credit score of an address, when the user row exists. -/
def scoreOf (db : DB) (addr : String) : Option Int :=
  (findUser db addr).map (fun u => u.credit_score)

/-- `update users set credit_score = s where wallet_address = addr`. -/
def setScore (db : DB) (addr : String) (s : Int) : DB :=
  { db with users := db.users.map (fun u =>
      if u.wallet_address = addr then { u with credit_score := s } else u) }

/-- `update users set ens_stripped = b where wallet_address = addr`. -/
def setStripped (db : DB) (addr : String) (b : Bool) : DB :=
  { db with users := db.users.map (fun u =>
      if u.wallet_address = addr then { u with ens_stripped := b } else u) }

/-- `insert into credit_history ...`. -/
def appendHistory (db : DB) (e : CreditHistoryEntry) : DB :=
  { db with credit_history := db.credit_history ++ [e] }

/-- `stripENS` (services.ts): reads the user, and when present and not already
stripped, sets `ens_stripped = true` (the on-chain default marking is an
external Status Oracle call with no effect on the store). -/
def stripENS (db : DB) (addr : String) : DB :=
  match findUser db addr with
  | none => db
  | some u => if u.ens_stripped then db else setStripped db addr true

/-- `Math.max(CREDIT_SCORE.MIN, Math.min(CREDIT_SCORE.MAX, oldScore + change))`. -/
def clampScore (x : Int) : Int :=
  max SCORE_MIN (min SCORE_MAX x)

/-- The first two writes of `updateCreditScore`: store the new score, then
append the history row recording the old and the new score. -/
def afterScoreWrite (db : DB) (addr : String) (old ns : Int) (reason : ScoreReason) : DB :=
  appendHistory (setScore db addr ns)
    { wallet_address := addr, old_score := old, new_score := ns, reason := reason }

/-- `updateCreditScore` (services.ts): reads the current score, clamps
`old + change` into `[300, 900]`, writes it, appends a history row, and strips
the ENS flag when the new score falls below the strip threshold.  Returns the
new score (or the default score when the user row is absent, writing nothing). -/
def updateCreditScore (db : DB) (addr : String) (change : Int) (reason : ScoreReason) :
    DB × Int :=
  match findUser db addr with
  | none => (db, SCORE_DEFAULT)
  | some u =>
    (if clampScore (u.credit_score + change) < ENS_STRIP_THRESHOLD then
       stripENS (afterScoreWrite db addr u.credit_score
         (clampScore (u.credit_score + change)) reason) addr
     else afterScoreWrite db addr u.credit_score
       (clampScore (u.credit_score + change)) reason,
     clampScore (u.credit_score + change))

/-- A sequence of `updateCreditScore` calls against one address. -/
def applyScoreUpdates (db : DB) (addr : String) (us : List (Int × ScoreReason)) : DB :=
  us.foldl (fun s u => (updateCreditScore s addr u.1 u.2).1) db

/-- `getOrCreateUser` (services.ts): returns the existing row, or inserts a
fresh profile (`credit_score = 650`, `garnish_percentage = 50`,
`auto_repay_enabled = true`, ENS lookup omitted). -/
def getOrCreateUser (db : DB) (addr : String) : DB :=
  match findUser db addr with
  | some _ => db
  | none =>
    { db with users := db.users ++
        [{ wallet_address := addr, credit_score := SCORE_DEFAULT, ens_stripped := false,
           garnish_percentage := 50, auto_repay_enabled := true }] }

/-- The vouch row stored for a `(voucher, borrower)` pair, if any
(`select * from vouches where voucher_address = v and borrower_address = b single`). -/
def findVouchPair (db : DB) (voucher borrower : String) : Option Vouch :=
  db.vouches.find? (fun v =>
    decide (v.voucher_address = voucher ∧ v.borrower_address = borrower))

/-- How many vouch rows exist for a `(voucher, borrower)` pair. -/
def pairCount (db : DB) (voucher borrower : String) : Nat :=
  (db.vouches.filter (fun v =>
    decide (v.voucher_address = voucher ∧ v.borrower_address = borrower))).length

/-- `createVouch` (services.ts): refuse self-vouching; ensure both users exist;
when a row for the pair already exists, add `limitAmount` to its limit and
reactivate it; otherwise insert a fresh row with zero usage.  Returns the row
written. -/
def createVouch (db : DB) (voucher borrower : String) (limitAmount : Nat) (nextId : Nat) :
    DB × Option Vouch :=
  if voucher = borrower then (db, none)
  else
    let db1 := getOrCreateUser (getOrCreateUser db voucher) borrower
    match findVouchPair db1 voucher borrower with
    | some existing =>
      ({ db1 with vouches := db1.vouches.map (fun v =>
          if v.id = existing.id then
            { v with limit_amount := v.limit_amount + limitAmount, is_active := true }
          else v) },
       some { existing with
                limit_amount := existing.limit_amount + limitAmount,
                is_active := true })
    | none =>
      let nv : Vouch :=
        { id := nextId, voucher_address := voucher, borrower_address := borrower,
          limit_amount := limitAmount, current_usage := 0, is_active := true }
      ({ db1 with vouches := db1.vouches ++ [nv] }, some nv)

/-- `select * from debts where id = debtId single`. -/
def findDebt (db : DB) (debtId : Nat) : Option Debt :=
  db.debts.find? (fun d => decide (d.id = debtId))

/-- The status of the stored debt row with the given id. -/
def statusOf (db : DB) (debtId : Nat) : Option DebtStatus :=
  (findDebt db debtId).map (fun d => d.status)

/-- The amount owed of the stored debt row with the given id. -/
def owedOf (db : DB) (debtId : Nat) : Option Nat :=
  (findDebt db debtId).map (fun d => d.amount_owed)

/-- `update debts set ... where id = debtId`. -/
def setDebt (db : DB) (debtId : Nat) (f : Debt → Debt) : DB :=
  { db with debts := db.debts.map (fun d => if d.id = debtId then f d else d) }

/-- `insert into payments ...`. -/
def appendPayment (db : DB) (p : Payment) : DB :=
  { db with payments := db.payments ++ [p] }

/-- The usage of the stored vouch row with the given id. -/
def usageOf (db : DB) (vid : Nat) : Option Nat :=
  (db.vouches.find? (fun v => decide (v.id = vid))).map (fun v => v.current_usage)

/-- The vouch release performed when a debt reaches amount_owed 0: read the
vouch tied to the debt and write `Math.max(0, current_usage - original)`, which
on naturals is exactly truncated subtraction; skip when the debt carries no
vouch id or the vouch row is missing. -/
def releaseVouch (db : DB) (vouchId : Option Nat) (original : Nat) : DB :=
  match vouchId with
  | none => db
  | some vid =>
    match db.vouches.find? (fun v => decide (v.id = vid)) with
    | none => db
    | some _ =>
      { db with vouches := db.vouches.map (fun v =>
          if v.id = vid then { v with current_usage := v.current_usage - original } else v) }

/-- `select * from vouches where borrower_address = b and is_active = true`. -/
def activeVouchesFor (db : DB) (borrower : String) : List Vouch :=
  db.vouches.filter (fun v => decide (v.borrower_address = borrower ∧ v.is_active = true))

/-- `order('limit_amount', { ascending: false })`: stable sort, biggest vouch
first (creation order breaks ties). -/
def sortVouchesByLimitDesc (l : List Vouch) : List Vouch :=
  l.insertionSort (fun a b => b.limit_amount ≤ a.limit_amount)

/-- `vouches.reduce((sum, v) => sum + (Number(v.limit_amount) - Number(v.current_usage)), 0)`:
the JavaScript sum ranges over integers (a corrupted row with usage above limit
would contribute negatively), so it is computed in `Int`. -/
def availableCredit (vouches : List Vouch) : Int :=
  (vouches.map (fun v => (v.limit_amount : Int) - (v.current_usage : Int))).sum

/-- `Number(vouch.limit_amount) - Number(vouch.current_usage)` as used inside
the allocation loop, where the `<= 0` guard makes truncated subtraction exact. -/
def vouchAvailable (v : Vouch) : Nat :=
  v.limit_amount - v.current_usage

/-- The allocation loop of `borrow`: walk the fetched vouches in order, skip
vouches with no headroom, draw `min(remaining, available)` from each, and stop
once the request is exhausted. -/
def allocate : List Vouch → Nat → List (Vouch × Nat)
  | [], _ => []
  | v :: vs, remaining =>
    if remaining = 0 then []
    else if vouchAvailable v = 0 then allocate vs remaining
    else
      (v, min remaining (vouchAvailable v)) ::
        allocate vs (remaining - min remaining (vouchAvailable v))

/-- Total amount that an allocation draws from the vouch with the given id. -/
def allocAmt (al : List (Vouch × Nat)) (vid : Nat) : Nat :=
  ((al.filter (fun e => decide (e.1.id = vid))).map (fun e => e.2)).sum

/-- `update vouches set current_usage = current_usage + d where id = vid`. -/
def bumpUsage (vs : List Vouch) (vid : Nat) (d : Nat) : List Vouch :=
  vs.map (fun v => if v.id = vid then { v with current_usage := v.current_usage + d } else v)

/-- The usage updates issued by the allocation loop, one per drawn vouch. -/
def applyAlloc (vs : List Vouch) (al : List (Vouch × Nat)) : List Vouch :=
  al.foldl (fun acc e => bumpUsage acc e.1.id e.2) vs

/-- The debt row inserted for one drawn vouch:
`original_amount = amount_owed = amount drawn`, `lender = voucher`,
`status = 'active'`. -/
def mkDebt (borrower : String) (v : Vouch) (drawn : Nat) (dueMs : Nat) (debtId : Nat) : Debt :=
  { id := debtId, borrower_address := borrower, lender_address := v.voucher_address,
    vouch_id := some v.id, original_amount := drawn, amount_owed := drawn,
    due_date := dueMs, status := DebtStatus.active, paid_at := none }

/-- The debt rows inserted by the allocation loop, with sequential fresh ids. -/
def debtsFromAlloc (borrower : String) (al : List (Vouch × Nat)) (dueMs nextId : Nat) :
    List Debt :=
  al.enum.map (fun e => mkDebt borrower e.2.1 e.2.2 dueMs (nextId + e.1))

/-- The error responses of `borrow`: "No vouches available",
"Insufficient credit", "Failed to create debt". -/
inductive BorrowError where
  | noVouches
  | insufficientCredit
  | failedToCreate
deriving DecidableEq

/-- The value returned by `borrow`. -/
structure BorrowResult where
  success : Bool
  debts : List Debt
  err : Option BorrowError
deriving DecidableEq

/-- `borrow` (services.ts, identical allocation logic in POST /borrow): fetch
the borrower's active vouches biggest-limit-first; error when there are none;
error when the request exceeds `availableCredit`; otherwise greedily draw from
the vouches, inserting one debt row per vouch drawn (all sharing the computed
due date `dueMs`) and bumping each drawn vouch's usage. -/
def borrow (db : DB) (borrower : String) (amount : Nat) (dueMs nextId : Nat) :
    DB × BorrowResult :=
  let vouches := sortVouchesByLimitDesc (activeVouchesFor db borrower)
  if vouches.isEmpty then
    (db, { success := false, debts := [], err := some BorrowError.noVouches })
  else if (amount : Int) > availableCredit vouches then
    (db, { success := false, debts := [], err := some BorrowError.insufficientCredit })
  else
    let al := allocate vouches amount
    let newDebts := debtsFromAlloc borrower al dueMs nextId
    let db1 := { db with debts := db.debts ++ newDebts, vouches := applyAlloc db.vouches al }
    if newDebts.isEmpty then
      (db1, { success := false, debts := [], err := some BorrowError.failedToCreate })
    else
      (db1, { success := true, debts := newDebts, err := none })

/-- The allocation that a borrow request walks: the greedy draw over the
borrower's active vouches sorted biggest limit first. -/
def borrowAlloc (db : DB) (borrower : String) (amount : Nat) : List (Vouch × Nat) :=
  allocate (sortVouchesByLimitDesc (activeVouchesFor db borrower)) amount

/-- The error responses of `repayDebt`: "Debt not found", "Debt already paid". -/
inductive RepayError where
  | debtNotFound
  | alreadyPaid
deriving DecidableEq

/-- The value returned by `repayDebt`. -/
structure RepayResult where
  success : Bool
  paid : Nat
  remaining : Nat
  fullyPaid : Bool
  err : Option RepayError
deriving DecidableEq

/-- The writes `repayDebt` issues once a payment clears the debt: release the
tied vouch by the debt's original amount, apply the on-time bonus when
`due_date >= now`, and store the paid debt row (`amount_owed = 0`,
`status = 'paid'`, `paid_at` stamped; the debt-row update is issued last in
the source). -/
def repayFullBlock (db : DB) (borrower : String) (debt : Debt) (debtId now : Nat) : DB :=
  let db2 := releaseVouch db debt.vouch_id debt.original_amount
  let db3 := if now ≤ debt.due_date then
      (updateCreditScore db2 borrower ON_TIME_BONUS (ScoreReason.onTimePayoff debtId)).1
    else db2
  setDebt db3 debtId (fun d =>
    { d with amount_owed := 0, status := DebtStatus.paid, paid_at := some now })

/-- `repayDebt` (services.ts): fetch the debt by id and borrower; refuse when
already paid; cap the payment at `amount_owed`; record a payment row
(`full` when it clears the debt, `manual` otherwise); on full payment release
the tied vouch by the debt's original amount, apply the on-time bonus when
`due_date >= now`, and mark the debt paid; otherwise store the reduced owed
amount.  (In the source the debt-row update is issued last; the branches below
apply the same writes in the same order.) -/
def repayDebt (db : DB) (borrower : String) (debtId : Nat) (amount : Nat) (now : Nat) :
    DB × RepayResult :=
  match db.debts.find? (fun d => decide (d.id = debtId ∧ d.borrower_address = borrower)) with
  | none =>
    (db, { success := false, paid := 0, remaining := 0, fullyPaid := false,
           err := some RepayError.debtNotFound })
  | some debt =>
    if debt.status = DebtStatus.paid then
      (db, { success := false, paid := 0, remaining := 0, fullyPaid := true,
             err := some RepayError.alreadyPaid })
    else
      let paymentAmount := min amount debt.amount_owed
      let newAmountOwed := debt.amount_owed - paymentAmount
      let db1 := appendPayment db
        { debt_id := debtId, amount := paymentAmount,
          payment_type := if newAmountOwed = 0 then PaymentType.full else PaymentType.manual }
      if newAmountOwed = 0 then
        (repayFullBlock db1 borrower debt debtId now,
         { success := true, paid := paymentAmount, remaining := 0, fullyPaid := true,
           err := none })
      else
        (setDebt db1 debtId (fun d => { d with amount_owed := newAmountOwed }),
         { success := true, paid := paymentAmount, remaining := newAmountOwed,
           fullyPaid := false, err := none })

/-- One iteration of the overdue loop: flip the debt to 'overdue', then apply
the late-payment penalty to its borrower. -/
def sweepStep (db : DB) (d : Debt) : DB :=
  (updateCreditScore (setDebt db d.id (fun x => { x with status := DebtStatus.overdue }))
    d.borrower_address (-LATE_PAYMENT_PENALTY) (ScoreReason.latePayment d.id)).1

/-- `checkOverdueDebts` (services.ts): fetch all debts with status 'active' and
`due_date < now`, then flip each to 'overdue' and penalize its borrower;
returns the number processed. -/
def checkOverdueDebts (db : DB) (now : Nat) : DB × Nat :=
  ((db.debts.filter (fun d =>
      decide (d.status = DebtStatus.active ∧ d.due_date < now))).foldl sweepStep db,
   (db.debts.filter (fun d =>
      decide (d.status = DebtStatus.active ∧ d.due_date < now))).length)

/-- `markDebtDefaulted` (services.ts): fetch the debt; refuse when already
defaulted or paid; otherwise flip it to 'defaulted' and apply the default
penalty. -/
def markDebtDefaulted (db : DB) (debtId : Nat) : DB × Bool :=
  match findDebt db debtId with
  | none => (db, false)
  | some debt =>
    if debt.status = DebtStatus.defaulted ∨ debt.status = DebtStatus.paid then (db, false)
    else
      ((updateCreditScore (setDebt db debtId (fun d => { d with status := DebtStatus.defaulted }))
          debt.borrower_address (-DEFAULT_PENALTY) (ScoreReason.defaultPenalty debtId)).1,
       true)

/-- `Math.floor(incoming * (garnishPercent / 100))`, read over exact rational
arithmetic (amounts are integral minor units). -/
def garnishFloor (amount p : Nat) : Nat :=
  Nat.floor ((amount : ℚ) * ((p : ℚ) / 100))

/-- `select * from debts where borrower_address = b and status in ('active', 'overdue')`. -/
def activeDebtsFor (db : DB) (borrower : String) : List Debt :=
  db.debts.filter (fun d =>
    decide (d.borrower_address = borrower ∧
      (d.status = DebtStatus.active ∨ d.status = DebtStatus.overdue)))

/-- `order('due_date', { ascending: true })`: pay the oldest debt first. -/
def sortDebtsByDueDate (l : List Debt) : List Debt :=
  l.insertionSort (fun a b => a.due_date ≤ b.due_date)

/-- The observable result of one run of the garnishment callback:
`accepted` records the `bank.acceptTransfer` call (present on every path);
`processed` records the computed `(garnishAmount, remainder)` split when the
callback got as far as computing one. -/
structure TransferOutcome where
  accepted : Bool
  processed : Option (Nat × Nat)
deriving DecidableEq

/-- The writes the garnishment callback issues when the garnish clears the
debt: store the paid debt row first (`amount_owed = 0`, `status = 'paid'`,
`paid_at` stamped), release the tied vouch by the debt's original amount,
apply the on-time bonus when `due_date >= now`, and clear the user's stripped
flag when no other active/overdue debt remains. -/
def garnishPaidBlock (db : DB) (userAddress : String) (activeDebt : Debt) (now : Nat) : DB :=
  let db2 := setDebt db activeDebt.id (fun d =>
    { d with amount_owed := 0, status := DebtStatus.paid, paid_at := some now })
  let db3 := releaseVouch db2 activeDebt.vouch_id activeDebt.original_amount
  let db4 := if now ≤ activeDebt.due_date then
      (updateCreditScore db3 userAddress ON_TIME_BONUS
        (ScoreReason.onTimePayoff activeDebt.id)).1
    else db3
  if (db4.debts.filter (fun d =>
      decide (d.borrower_address = userAddress ∧
        (d.status = DebtStatus.active ∨ d.status = DebtStatus.overdue) ∧
        d.id ≠ activeDebt.id))).isEmpty then
    setStripped db4 userAddress false
  else db4

/-- The store writes of a successful garnish send: record the payment row,
then either run the full-payment block or store the reduced owed amount. -/
def garnishApply (db : DB) (userAddress : String) (activeDebt : Debt) (g now : Nat) : DB :=
  let db1 := appendPayment db
    { debt_id := activeDebt.id, amount := g, payment_type := PaymentType.garnish }
  if activeDebt.amount_owed - g = 0 then garnishPaidBlock db1 userAddress activeDebt now
  else
    setDebt db1 activeDebt.id (fun d =>
      { d with amount_owed := activeDebt.amount_owed - g })

/-- The garnishment engine: the `bank.onTransfer` callback installed by
POST /connect.  `userAddress` is the session identity, `amount` the incoming
transfer amount, `vaultConfigured` whether `VAULT_ADDRESS` is set, and `sendOk`
whether the `bank.sendTransfer` call to the vault succeeds (when it throws,
the catch block swallows the error and nothing is written).  Accept in full
when auto-repay is off or no active/overdue debt exists; otherwise garnish
`min(floor(amount * p / 100), amount_owed)` against the oldest debt, accept the
transfer, and — when the garnish is positive and a vault is configured and the
send succeeds — record the payment, reduce the debt, and on full payment mark
it paid, release the tied vouch by the debt's original amount, apply the
on-time bonus, and clear the stripped flag when no active/overdue debt
remains. -/
def onTransfer (db : DB) (userAddress : String) (amount now : Nat)
    (vaultConfigured sendOk : Bool) : DB × TransferOutcome :=
  let autoRepay := match findUser db userAddress with
    | some u => u.auto_repay_enabled
    | none => false
  if autoRepay = false then (db, { accepted := true, processed := none })
  else
    match sortDebtsByDueDate (activeDebtsFor db userAddress) with
    | [] => (db, { accepted := true, processed := none })
    | activeDebt :: _ =>
      let garnishPercent := match findUser db userAddress with
        | some u => u.garnish_percentage
        | none => 50
      let garnishAmount := min (garnishFloor amount garnishPercent) activeDebt.amount_owed
      let remainder := amount - garnishAmount
      if 0 < garnishAmount ∧ vaultConfigured = true then
        if sendOk then
          (garnishApply db userAddress activeDebt garnishAmount now,
           { accepted := true, processed := some (garnishAmount, remainder) })
        else (db, { accepted := true, processed := some (garnishAmount, remainder) })
      else (db, { accepted := true, processed := some (garnishAmount, remainder) })

/-- The store-mutating operations of the service layer, used to state
state-machine properties. -/
inductive Op where
  | repay (borrower : String) (debtId amount now : Nat)
  | transfer (borrower : String) (amount now : Nat) (vaultConfigured sendOk : Bool)
  | sweep (now : Nat)
  | markDefault (debtId : Nat)
  | doBorrow (borrower : String) (amount dueMs nextId : Nat)
deriving DecidableEq

/-- The store produced by one operation. -/
def applyOp (db : DB) : Op → DB
  | Op.repay b debtId amt now => (repayDebt db b debtId amt now).1
  | Op.transfer b a now v ok => (onTransfer db b a now v ok).1
  | Op.sweep now => (checkOverdueDebts db now).1
  | Op.markDefault debtId => (markDebtDefaulted db debtId).1
  | Op.doBorrow b a dueMs nextId => (borrow db b a dueMs nextId).1

/-- A sequence of operations. -/
def applyOps (db : DB) (ops : List Op) : DB :=
  ops.foldl applyOp db

/-- The operations that pay debts down: manual repayment and garnishment. -/
def Op.isRepayment : Op → Prop
  | Op.repay _ _ _ _ => True
  | Op.transfer _ _ _ _ _ => True
  | _ => False

/-- The debt-status transitions the store actually performs:
`active → overdue | paid | defaulted`, `overdue → paid | defaulted`, and —
via manual repayment only — `defaulted → paid`. -/
def debtTransAllowed (s t : DebtStatus) : Prop :=
  s = t ∨
  (s = DebtStatus.active ∧
    (t = DebtStatus.overdue ∨ t = DebtStatus.paid ∨ t = DebtStatus.defaulted)) ∨
  (s = DebtStatus.overdue ∧ (t = DebtStatus.paid ∨ t = DebtStatus.defaulted)) ∨
  (s = DebtStatus.defaulted ∧ t = DebtStatus.paid)

/-- How a stored debt row tracks the debt row that a borrow created: the
identity fields are untouched, the amount still owed hits zero exactly when
the row is marked paid, and the row only ever moves from 'active' to 'paid'
(repayment operations never move it anywhere else). -/
def trackedRow (nd d : Debt) : Prop :=
  d.id = nd.id ∧ d.borrower_address = nd.borrower_address ∧ d.vouch_id = nd.vouch_id ∧
  d.original_amount = nd.original_amount ∧
  (d.status = DebtStatus.paid ↔ d.amount_owed = 0) ∧
  (d.status = DebtStatus.active ∨ d.status = DebtStatus.paid)

/-- Every debt row other than the freshly created ones that references a vouch
some created debt draws on is already paid (so no repayment of it can release
that vouch again). -/
def oldVouchesPaid (newDebts : List Debt) (X : DB) : Prop :=
  ∀ d ∈ X.debts, (∀ nd ∈ newDebts, d.id ≠ nd.id) →
    ∀ nd ∈ newDebts, d.vouch_id = nd.vouch_id → d.status = DebtStatus.paid

/-- Each vouch a created debt draws on carries its pre-borrow usage plus the
created debt's original amount exactly while that debt is unpaid; full payment
releases the vouch by the original amount, bringing the usage back. -/
def usageTracks (db0 : DB) (newDebts : List Debt) (X : DB) : Prop :=
  ∀ nd ∈ newDebts, ∀ vid, nd.vouch_id = some vid →
    ∃ u0, usageOf db0 vid = some u0 ∧
      ∃ d, findDebt X nd.id = some d ∧
        usageOf X vid =
          some (u0 + (if d.status = DebtStatus.paid then 0 else nd.original_amount))

/-- The state invariant of the borrow/repay round trip: debt ids stay pairwise
distinct, every created debt row tracks its original, vouch usages track the
unpaid created debts, and no other unpaid debt references a drawn vouch. -/
def RoundTripInv (db0 : DB) (newDebts : List Debt) (X : DB) : Prop :=
  (X.debts.map (fun d => d.id)).Nodup ∧
  (∀ nd ∈ newDebts, ∃ d, findDebt X nd.id = some d ∧ trackedRow nd d) ∧
  usageTracks db0 newDebts X ∧
  oldVouchesPaid newDebts X

/-- `BankClient`'s session-level mutable state: socket openness
(`ws !== null && ws.readyState === OPEN`), the authentication flag, and the
reconnect bookkeeping fields (source defaults: 0 attempts, max 5, base delay
3000 ms). -/
structure BankClientState where
  wsOpen : Bool
  isAuthenticated : Bool
  reconnectAttempts : Nat
  maxReconnectAttempts : Nat
  reconnectDelay : Nat
deriving DecidableEq

/-- `isReady()`: authenticated and socket open. -/
def BankClientState.isReady (s : BankClientState) : Bool :=
  s.isAuthenticated && s.wsOpen

/-- The fixed `init()` handshake deadline (30 000 ms). -/
def initDeadlineMs : Nat := 30000

/-- What `init()` does up front, as a function of the client state it is
called on. -/
structure InitStart where
  opensNewSocket : Bool
  sendsAuthRequestOnOpen : Bool
  reportsAlreadyRunning : Bool
deriving DecidableEq

/-- `BankClient.init()` before any inbound message arrives: it unconditionally
constructs a fresh WebSocket and, on 'open', runs `startAuthFlow` (sending the
auth-request envelope).  The body contains no branch on `isAuthenticated` and
never produces the "Agent already running" response — that response exists
only in the POST /connect handler. -/
def initStart (_s : BankClientState) : InitStart :=
  { opensNewSocket := true, sendsAuthRequestOnOpen := true, reportsAlreadyRunning := false }

/-- The inbound message roles `handleMessage` distinguishes. -/
inductive InMsg where
  | authChallenge
  | authVerify
  | ledgerBalances
  | transferUpdate
  | other
deriving DecidableEq

/-- `handleMessage`'s effect on `isAuthenticated`: set on `auth_verify`,
otherwise kept. -/
def handleAuth (auth : Bool) (m : InMsg) : Bool :=
  if m = InMsg.authVerify then true else auth

/-- The message listener installed by `init()` resolves the promise exactly
when `!wasAuthenticated && isAuthenticated` after handling a message; this
lists that flag for each message of a trace. -/
def resolveFlags : Bool → List InMsg → List Bool
  | _, [] => []
  | auth, m :: ms =>
    decide (auth = false ∧ handleAuth auth m = true) :: resolveFlags (handleAuth auth m) ms

/-- How the `init()` promise settles. -/
inductive InitOutcome where
  | resolvedAt (t : Nat)
  | timedOut
deriving DecidableEq

/-- The settled value of the `init()` promise over a timed inbound trace
(timestamps in ms from the call): the 30 s timer rejects with
'Connection timeout' unless the first authenticating message lands first. -/
def initOutcome : Bool → List (Nat × InMsg) → InitOutcome
  | _, [] => InitOutcome.timedOut
  | auth, (t, m) :: rest =>
    if initDeadlineMs ≤ t then InitOutcome.timedOut
    else if auth = false ∧ handleAuth auth m = true then InitOutcome.resolvedAt t
    else initOutcome (handleAuth auth m) rest

/-- The `activeAgents[userAddress]?.isReady()` guard of POST /connect. -/
def connectIsReady (agents : List (String × BankClientState)) (addr : String) : Bool :=
  match agents.find? (fun e => decide (e.1 = addr)) with
  | some e => e.2.isReady
  | none => false

/-- What POST /connect does: report "Agent already running" without
constructing a client, or start a new agent (constructing a `BankClient` and
awaiting `init()`). -/
inductive ConnectAction where
  | alreadyRunning
  | startAgent
deriving DecidableEq

/-- The branch POST /connect takes. -/
def connectAction (agents : List (String × BankClientState)) (addr : String) : ConnectAction :=
  if connectIsReady agents addr then ConnectAction.alreadyRunning
  else ConnectAction.startAgent

/-- `attemptReconnect`: when the attempt counter has reached the maximum,
return without scheduling; otherwise increment the counter to `n` and schedule
a retry after `reconnectDelay * 2 ^ (n - 1)` ms. -/
def attemptReconnect (s : BankClientState) : Option (Nat × BankClientState) :=
  if s.maxReconnectAttempts ≤ s.reconnectAttempts then none
  else
    some (s.reconnectDelay * 2 ^ (s.reconnectAttempts + 1 - 1),
      { s with reconnectAttempts := s.reconnectAttempts + 1 })

/-- The transport-level events of a client's lifetime. -/
inductive ClientEvent where
  | wsClose
  | initSucceeded
  | disconnectCall
deriving DecidableEq

/-- One client transition: the 'close' handler clears the auth flag and runs
`attemptReconnect` (returning the scheduled delay, if any); a successful
`init()` inside `attemptReconnect` resets the attempt counter to zero; an
explicit `disconnect()` zeroes `maxReconnectAttempts` first and then closes
the socket. -/
def stepClient (s : BankClientState) : ClientEvent → BankClientState × Option Nat
  | ClientEvent.wsClose =>
    match attemptReconnect { s with isAuthenticated := false, wsOpen := false } with
    | none => ({ s with isAuthenticated := false, wsOpen := false }, none)
    | some ds => (ds.2, some ds.1)
  | ClientEvent.initSucceeded =>
    ({ s with wsOpen := true, isAuthenticated := true, reconnectAttempts := 0 }, none)
  | ClientEvent.disconnectCall =>
    ({ s with maxReconnectAttempts := 0, wsOpen := false, isAuthenticated := false }, none)

/-- The reconnect delays scheduled along a trace of client events. -/
def runClient : BankClientState → List ClientEvent → List (Option Nat)
  | _, [] => []
  | s, e :: es => (stepClient s e).2 :: runClient (stepClient s e).1 es

/-- A client that is connected and authenticated, with the constructor's
reconnect defaults. -/
def authedClient : BankClientState :=
  { wsOpen := true, isAuthenticated := true, reconnectAttempts := 0,
    maxReconnectAttempts := 5, reconnectDelay := 3000 }

/-- A concrete address used by witnesses. -/
def userAlice : String := "0xalice"

/-- A second concrete address. -/
def userBob : String := "0xbob"

/-- A third concrete address, used as a vouch counterparty. -/
def userCarol : String := "0xcarol"

/-- One-user store with the default profile (score 650, garnish 50,
auto-repay on). -/
def dbOneUser : DB :=
  { users := [{ wallet_address := userAlice, credit_score := 650, ens_stripped := false,
                garnish_percentage := 50, auto_repay_enabled := true }],
    vouches := [], debts := [], payments := [], credit_history := [] }

/-- A deactivated vouch of 2000 from carol to alice, with usage 7. -/
def exVouch : Vouch :=
  { id := 1, voucher_address := userCarol, borrower_address := userAlice,
    limit_amount := 2000, current_usage := 7, is_active := false }

/-- Store holding just `exVouch`. -/
def dbOneVouch : DB :=
  { users := [], vouches := [exVouch], debts := [], payments := [], credit_history := [] }

/-- A concrete active debt of alice owing 40, due at time 100. -/
def exDebt1 : Debt :=
  { id := 1, borrower_address := userAlice, lender_address := userCarol, vouch_id := none,
    original_amount := 40, amount_owed := 40, due_date := 100,
    status := DebtStatus.active, paid_at := none }

/-- Alice (garnish 50 %, auto-repay on) with one active debt owing 40. -/
def dbGarnish : DB :=
  { users := [{ wallet_address := userAlice, credit_score := 650, ens_stripped := false,
                garnish_percentage := 50, auto_repay_enabled := true }],
    vouches := [], debts := [exDebt1], payments := [], credit_history := [] }

/-- How many late-payment penalty entries for the given debt the credit
history holds (entries whose reason is "Late payment on debt #debtId"). -/
def latePenaltyCount (db : DB) (debtId : Nat) : Nat :=
  (db.credit_history.filter (fun e =>
    decide (e.reason = ScoreReason.latePayment debtId))).length

/-- Repeated runs of the hourly overdue sweep, at the given times. -/
def sweepMany (db : DB) (nows : List Nat) : DB :=
  nows.foldl (fun X n => (checkOverdueDebts X n).1) db

/-- A concrete defaulted debt of alice owing 40, due at time 5. -/
def exDebtDefaulted : Debt :=
  { id := 3, borrower_address := userAlice, lender_address := userCarol, vouch_id := none,
    original_amount := 40, amount_owed := 40, due_date := 5,
    status := DebtStatus.defaulted, paid_at := none }

/-- Store holding just `exDebtDefaulted`. -/
def dbDefaulted : DB :=
  { users := [], vouches := [], debts := [exDebtDefaulted], payments := [],
    credit_history := [] }

/-- An active vouch of 1500 from bob to alice, unused. -/
def exVouchA : Vouch :=
  { id := 11, voucher_address := userBob, borrower_address := userAlice,
    limit_amount := 1500, current_usage := 0, is_active := true }

/-- An active vouch of 1000 from carol to alice, unused. -/
def exVouchB : Vouch :=
  { id := 12, voucher_address := userCarol, borrower_address := userAlice,
    limit_amount := 1000, current_usage := 0, is_active := true }

/-- Alice backed by the 1500 and 1000 vouches, with no debts yet. -/
def dbTwoVouch : DB :=
  { users := [{ wallet_address := userAlice, credit_score := 650, ens_stripped := false,
                garnish_percentage := 50, auto_repay_enabled := true }],
    vouches := [exVouchA, exVouchB], debts := [], payments := [], credit_history := [] }

/-- The debt row that borrowing 1200 against `dbTwoVouch` creates (fresh id
100, drawn from the 1500 vouch). -/
def exDebtRound : Debt :=
  { id := 100, borrower_address := userAlice, lender_address := userBob, vouch_id := some 11,
    original_amount := 1200, amount_owed := 1200, due_date := 500,
    status := DebtStatus.active, paid_at := none }

section CreditLemmas

/-- `List.find?` through a key-preserving map. -/
theorem find?_map_key {α : Type} [DecidableEq α] (key : UserRow → α)
    (f : UserRow → UserRow) (hf : ∀ u, key (f u) = key u) (a : α) :
    ∀ l : List UserRow,
      (l.map f).find? (fun u => decide (key u = a)) =
        (l.find? (fun u => decide (key u = a))).map f := by
  intro l
  induction l with
  | nil => rfl
  | cons x t ih =>
    by_cases h : key x = a
    · simp [List.find?, hf, h]
    · simp [List.find?, hf, h, ih]

theorem findUser_setScore (db : DB) (addr : String) (s : Int) :
    findUser (setScore db addr s) addr =
      (findUser db addr).map (fun u => { u with credit_score := s }) := by
  unfold findUser setScore
  rw [find?_map_key (fun u : UserRow => u.wallet_address)
    (fun u => if u.wallet_address = addr then { u with credit_score := s } else u)
    (by intro u; by_cases h : u.wallet_address = addr <;> simp [h]) addr db.users]
  cases hv : db.users.find? (fun u => decide (u.wallet_address = addr)) with
  | none => rfl
  | some u =>
    have hw := List.find?_some hv
    simp only [decide_eq_true_eq] at hw
    simp [hw]

theorem scoreOf_setStripped (db : DB) (addr a : String) (b : Bool) :
    scoreOf (setStripped db addr b) a = scoreOf db a := by
  unfold scoreOf findUser setStripped
  rw [find?_map_key (fun u : UserRow => u.wallet_address)
    (fun u => if u.wallet_address = addr then { u with ens_stripped := b } else u)
    (by intro u; by_cases h : u.wallet_address = addr <;> simp [h]) a db.users]
  cases hv : db.users.find? (fun u => decide (u.wallet_address = a)) with
  | none => rfl
  | some u => by_cases h : u.wallet_address = addr <;> simp [h]

theorem scoreOf_stripENS (db : DB) (addr a : String) :
    scoreOf (stripENS db addr) a = scoreOf db a := by
  unfold stripENS
  cases findUser db addr with
  | none => rfl
  | some u =>
    by_cases h : u.ens_stripped
    · simp [h]
    · simp [h, scoreOf_setStripped]

theorem clampScore_bounds (x : Int) : 300 ≤ clampScore x ∧ clampScore x ≤ 900 := by
  unfold clampScore SCORE_MIN SCORE_MAX
  omega

theorem scoreOf_afterScoreWrite_self (db : DB) (addr : String) (old ns : Int)
    (reason : ScoreReason) (u : UserRow) (hu : findUser db addr = some u) :
    scoreOf (afterScoreWrite db addr old ns reason) addr = some ns := by
  unfold afterScoreWrite
  show scoreOf (setScore db addr ns) addr = some ns
  unfold scoreOf
  rw [findUser_setScore, hu]
  rfl

theorem credit_history_stripENS (db : DB) (addr : String) :
    (stripENS db addr).credit_history = db.credit_history := by
  unfold stripENS
  cases findUser db addr with
  | none => rfl
  | some u => by_cases h : u.ens_stripped <;> simp [h, setStripped]

theorem credit_history_afterScoreWrite (db : DB) (addr : String) (old ns : Int)
    (reason : ScoreReason) :
    (afterScoreWrite db addr old ns reason).credit_history =
      db.credit_history ++
        [{ wallet_address := addr, old_score := old, new_score := ns, reason := reason }] :=
  rfl

/-- One `updateCreditScore` call on an existing user: the returned and stored
score is the clamp of `old + change`, and exactly one history row is appended. -/
theorem updateCreditScore_spec (db : DB) (addr : String) (change : Int)
    (reason : ScoreReason) (u : UserRow) (hu : findUser db addr = some u) :
    (updateCreditScore db addr change reason).2 = clampScore (u.credit_score + change) ∧
    scoreOf (updateCreditScore db addr change reason).1 addr =
      some (clampScore (u.credit_score + change)) ∧
    (updateCreditScore db addr change reason).1.credit_history =
      db.credit_history ++
        [{ wallet_address := addr, old_score := u.credit_score,
           new_score := clampScore (u.credit_score + change), reason := reason }] := by
  unfold updateCreditScore
  rw [hu]
  refine ⟨rfl, ?_, ?_⟩
  · by_cases h : clampScore (u.credit_score + change) < ENS_STRIP_THRESHOLD <;>
      simp only [h, if_true, if_false, scoreOf_stripENS] <;>
      exact scoreOf_afterScoreWrite_self db addr _ _ reason u hu
  · by_cases h : clampScore (u.credit_score + change) < ENS_STRIP_THRESHOLD <;>
      simp only [h, if_true, if_false, credit_history_stripENS] <;>
      exact credit_history_afterScoreWrite db addr _ _ reason

theorem findUser_isSome_setScore (db : DB) (addr : String) (s : Int) (a : String) :
    (findUser (setScore db addr s) a).isSome = (findUser db a).isSome := by
  unfold findUser setScore
  rw [find?_map_key (fun u : UserRow => u.wallet_address)
    (fun u => if u.wallet_address = addr then { u with credit_score := s } else u)
    (by intro u; by_cases h : u.wallet_address = addr <;> simp [h]) a db.users]
  cases db.users.find? (fun u => decide (u.wallet_address = a)) <;> rfl

theorem findUser_isSome_setStripped (db : DB) (addr : String) (b : Bool) (a : String) :
    (findUser (setStripped db addr b) a).isSome = (findUser db a).isSome := by
  unfold findUser setStripped
  rw [find?_map_key (fun u : UserRow => u.wallet_address)
    (fun u => if u.wallet_address = addr then { u with ens_stripped := b } else u)
    (by intro u; by_cases h : u.wallet_address = addr <;> simp [h]) a db.users]
  cases db.users.find? (fun u => decide (u.wallet_address = a)) <;> rfl

theorem findUser_isSome_stripENS (db : DB) (addr a : String) :
    (findUser (stripENS db addr) a).isSome = (findUser db a).isSome := by
  unfold stripENS
  cases findUser db addr with
  | none => rfl
  | some u =>
    by_cases h : u.ens_stripped
    · simp [h]
    · simp [h, findUser_isSome_setStripped]

theorem findUser_isSome_afterScoreWrite (db : DB) (addr : String) (old ns : Int)
    (r : ScoreReason) (a : String) :
    (findUser (afterScoreWrite db addr old ns r) a).isSome = (findUser db a).isSome := by
  show (findUser (setScore db addr ns) a).isSome = _
  exact findUser_isSome_setScore db addr ns a

theorem findUser_updateCreditScore_isSome (db : DB) (addr : String) (c : Int)
    (r : ScoreReason) (a : String) :
    (findUser ((updateCreditScore db addr c r).1) a).isSome = (findUser db a).isSome := by
  unfold updateCreditScore
  cases findUser db addr with
  | none => rfl
  | some u =>
    by_cases h : clampScore (u.credit_score + c) < ENS_STRIP_THRESHOLD <;>
      simp only [h, if_true, if_false]
    · rw [findUser_isSome_stripENS, findUser_isSome_afterScoreWrite]
    · rw [findUser_isSome_afterScoreWrite]

theorem scoreOf_applyScoreUpdates_mem (db : DB) (addr : String)
    (us : List (Int × ScoreReason)) (s : Int) (hs : scoreOf db addr = some s)
    (hb : 300 ≤ s ∧ s ≤ 900) :
    ∃ t, scoreOf (applyScoreUpdates db addr us) addr = some t ∧ 300 ≤ t ∧ t ≤ 900 := by
  induction us generalizing db s with
  | nil => exact ⟨s, hs, hb⟩
  | cons p rest ih =>
    obtain ⟨u, hu, hus⟩ : ∃ u, findUser db addr = some u ∧ u.credit_score = s := by
      unfold scoreOf at hs
      cases hv : findUser db addr with
      | none => rw [hv] at hs; exact absurd hs (by simp)
      | some u => rw [hv] at hs; exact ⟨u, rfl, by simpa using hs⟩
    have hspec := updateCreditScore_spec db addr p.1 p.2 u hu
    show ∃ t, scoreOf (applyScoreUpdates (updateCreditScore db addr p.1 p.2).1 addr rest) addr =
      some t ∧ _
    exact ih _ _ hspec.2.1 (clampScore_bounds _)

end CreditLemmas

/-- C4: every `updateCreditScore` call on an existing account writes
`clamp(old + delta, 300, 900)`, appends a history entry recording the old and
the new score, and so the stored score stays within `[300, 900]` across any
sequence of updates with arbitrary deltas. -/
theorem creditScore_always_clamped :
    (∀ (db : DB) (addr : String) (delta : Int) (reason : ScoreReason) (u : UserRow),
        findUser db addr = some u →
        (updateCreditScore db addr delta reason).2 = clampScore (u.credit_score + delta) ∧
        scoreOf (updateCreditScore db addr delta reason).1 addr =
          some (clampScore (u.credit_score + delta)) ∧
        (updateCreditScore db addr delta reason).1.credit_history =
          db.credit_history ++
            [{ wallet_address := addr, old_score := u.credit_score,
               new_score := clampScore (u.credit_score + delta), reason := reason }] ∧
        300 ≤ clampScore (u.credit_score + delta) ∧
        clampScore (u.credit_score + delta) ≤ 900) ∧
    (∀ (db : DB) (addr : String) (us : List (Int × ScoreReason)) (s : Int),
        scoreOf db addr = some s → 300 ≤ s → s ≤ 900 →
        ∃ t, scoreOf (applyScoreUpdates db addr us) addr = some t ∧ 300 ≤ t ∧ t ≤ 900) := by
  constructor
  · intro db addr delta reason u hu
    have h := updateCreditScore_spec db addr delta reason u hu
    exact ⟨h.1, h.2.1, h.2.2, clampScore_bounds _⟩
  · intro db addr us s hs h1 h2
    exact scoreOf_applyScoreUpdates_mem db addr us s hs ⟨h1, h2⟩

section VouchLemmas

theorem vouches_getOrCreateUser (db : DB) (addr : String) :
    (getOrCreateUser db addr).vouches = db.vouches := by
  unfold getOrCreateUser
  cases findUser db addr <;> rfl

/-- `List.find?` through a pair-field-preserving map on vouches. -/
theorem find?_map_vouch (p : Vouch → Bool) (f : Vouch → Vouch)
    (hf : ∀ v, p (f v) = p v) :
    ∀ l : List Vouch, (l.map f).find? p = (l.find? p).map f := by
  intro l
  induction l with
  | nil => rfl
  | cons x t ih =>
    by_cases h : p x = true
    · simp [List.find?, hf, h]
    · simp only [List.map_cons, List.find?, hf]
      rw [Bool.not_eq_true] at h
      rw [h]
      exact ih

theorem filter_map_vouch (p : Vouch → Bool) (f : Vouch → Vouch)
    (hf : ∀ v, p (f v) = p v) :
    ∀ l : List Vouch, (l.map f).filter p = (l.filter p).map f := by
  intro l
  induction l with
  | nil => rfl
  | cons x t ih =>
    by_cases h : p x = true
    · simp [List.filter_cons, hf, h, ih]
    · rw [Bool.not_eq_true] at h
      simp [List.filter_cons, hf, h, ih]

/-- The update branch of `createVouch` preserves the pair fields row by row,
so every pair's row count is unchanged; the insert branch adds one row for a
pair that had none. -/
theorem pairCount_createVouch (db : DB) (voucher borrower : String)
    (limitAmount nextId : Nat)
    (hinv : ∀ a b : String, pairCount db a b ≤ 1) :
    ∀ a b : String, pairCount (createVouch db voucher borrower limitAmount nextId).1 a b ≤ 1 := by
  intro a b
  unfold createVouch
  by_cases hself : voucher = borrower
  · simpa [hself] using hinv a b
  · simp only [hself, if_false]
    have hv1 : (getOrCreateUser (getOrCreateUser db voucher) borrower).vouches = db.vouches := by
      rw [vouches_getOrCreateUser, vouches_getOrCreateUser]
    cases hex : findVouchPair (getOrCreateUser (getOrCreateUser db voucher) borrower)
        voucher borrower with
    | some existing =>
      simp only []
      unfold pairCount
      simp only []
      rw [filter_map_vouch _ _ (by intro v; by_cases h : v.id = existing.id <;> simp [h]) _]
      rw [hv1]
      simpa [pairCount] using hinv a b
    | none =>
      simp only []
      unfold pairCount
      simp only [hv1]
      rw [List.filter_append]
      by_cases hab : a = voucher ∧ b = borrower
      · have hzero : (db.vouches.filter (fun v =>
            decide (v.voucher_address = a ∧ v.borrower_address = b))).length = 0 := by
          rw [List.length_eq_zero, List.filter_eq_nil_iff]
          intro v hv
          have := List.find?_eq_none.mp (by rw [← hex, findVouchPair, hv1]) v hv
          simp only [decide_eq_true_eq] at this ⊢
          rw [hab.1, hab.2]
          exact this
        rw [List.length_append, hzero]
        simp [List.filter, hab.1, hab.2]
      · have hone : (([
            { id := nextId, voucher_address := voucher, borrower_address := borrower,
              limit_amount := limitAmount, current_usage := 0,
              is_active := true }] : List Vouch).filter (fun v =>
              decide (v.voucher_address = a ∧ v.borrower_address = b))).length = 0 := by
          have h1 : ¬ (voucher = a ∧ borrower = b) := by
            intro h
            exact hab ⟨h.1.symm, h.2.symm⟩
          simp [List.filter, h1]
        rw [List.length_append, hone]
        simpa [pairCount] using hinv a b

end VouchLemmas

/-- C10: when a `(voucher, borrower)` pair already has a vouch row,
`createVouch` updates that row in place — adding `L` to `limit_amount`,
setting `is_active` to `true`, leaving `current_usage` unchanged — and inserts
no second row; and createVouch preserves the store invariant that at most one
vouch row exists per pair. -/
theorem createVouch_merges_existing :
    (∀ (db : DB) (voucher borrower : String) (L nextId : Nat) (ex : Vouch),
        voucher ≠ borrower →
        findVouchPair db voucher borrower = some ex →
        (createVouch db voucher borrower L nextId).1.vouches.length =
            db.vouches.length ∧
        (createVouch db voucher borrower L nextId).2 =
          some { ex with limit_amount := ex.limit_amount + L, is_active := true } ∧
        ((createVouch db voucher borrower L nextId).2.map (fun v => v.current_usage)) =
          some ex.current_usage ∧
        (createVouch db voucher borrower L nextId).1.vouches =
          db.vouches.map (fun v =>
            if v.id = ex.id then
              { v with limit_amount := v.limit_amount + L, is_active := true }
            else v)) ∧
    (∀ (db : DB) (voucher borrower : String) (L nextId : Nat),
        (∀ a b : String, pairCount db a b ≤ 1) →
        ∀ a b : String,
          pairCount (createVouch db voucher borrower L nextId).1 a b ≤ 1) := by
  constructor
  · intro db voucher borrower L nextId ex hself hex
    have hv1 : (getOrCreateUser (getOrCreateUser db voucher) borrower).vouches = db.vouches := by
      rw [vouches_getOrCreateUser, vouches_getOrCreateUser]
    have hex1 : findVouchPair (getOrCreateUser (getOrCreateUser db voucher) borrower)
        voucher borrower = some ex := by
      rw [findVouchPair, hv1]
      exact hex
    unfold createVouch
    rw [if_neg hself]
    simp only [hex1]
    refine ⟨by simp [hv1], ?_, ?_, by simp [hv1]⟩ <;> trivial
  · exact fun db voucher borrower L nextId hinv => pairCount_createVouch db voucher borrower
      L nextId hinv

/-- Witness for C4 at a concrete store: a large positive then a large negative
delta, with the score clamped each time. -/
theorem creditScore_always_clamped_witness :
    (findUser dbOneUser userAlice =
        some { wallet_address := userAlice, credit_score := 650, ens_stripped := false,
               garnish_percentage := 50, auto_repay_enabled := true } ∧
      scoreOf dbOneUser userAlice = some 650 ∧ (300 : Int) ≤ 650 ∧ (650 : Int) ≤ 900) ∧
    ((updateCreditScore dbOneUser userAlice 1000 (ScoreReason.onTimePayoff 1)).2 =
        clampScore (650 + 1000) ∧
      scoreOf (updateCreditScore dbOneUser userAlice 1000 (ScoreReason.onTimePayoff 1)).1
          userAlice = some (clampScore (650 + 1000)) ∧
      (updateCreditScore dbOneUser userAlice 1000 (ScoreReason.onTimePayoff 1)).1.credit_history =
        dbOneUser.credit_history ++
          [{ wallet_address := userAlice, old_score := 650,
             new_score := clampScore (650 + 1000), reason := ScoreReason.onTimePayoff 1 }] ∧
      300 ≤ clampScore (650 + 1000) ∧ clampScore (650 + 1000) ≤ 900) ∧
    (∃ t, scoreOf (applyScoreUpdates dbOneUser userAlice
          [(1000, ScoreReason.onTimePayoff 1), (-9999, ScoreReason.latePayment 2)])
          userAlice = some t ∧ 300 ≤ t ∧ 300 ≤ t ∧ t ≤ 900) := by
  refine ⟨by decide, ?_, ?_⟩
  · have h := creditScore_always_clamped.1 dbOneUser userAlice 1000
      (ScoreReason.onTimePayoff 1)
      { wallet_address := userAlice, credit_score := 650, ens_stripped := false,
        garnish_percentage := 50, auto_repay_enabled := true } (by decide)
    exact h
  · obtain ⟨t, h1, h2, h3⟩ := creditScore_always_clamped.2 dbOneUser userAlice
      [(1000, ScoreReason.onTimePayoff 1), (-9999, ScoreReason.latePayment 2)]
      650 (by decide) (by decide) (by decide)
    exact ⟨t, h1, h2, h2, h3⟩

/-- Witness for C10: re-vouching 500 for an existing (carol, alice) vouch of
2000 bumps the limit to 2500, reactivates it, keeps usage at 7, adds no row,
and the one-row-per-pair invariant is preserved. -/
theorem createVouch_merges_existing_witness :
    (userCarol ≠ userAlice ∧ findVouchPair dbOneVouch userCarol userAlice = some exVouch ∧
      (∀ a b : String, pairCount dbOneVouch a b ≤ 1)) ∧
    ((createVouch dbOneVouch userCarol userAlice 500 2).1.vouches.length =
        dbOneVouch.vouches.length ∧
      (createVouch dbOneVouch userCarol userAlice 500 2).2 =
        some { exVouch with limit_amount := exVouch.limit_amount + 500, is_active := true } ∧
      ((createVouch dbOneVouch userCarol userAlice 500 2).2.map
          (fun v => v.current_usage)) = some exVouch.current_usage ∧
      (createVouch dbOneVouch userCarol userAlice 500 2).1.vouches =
        dbOneVouch.vouches.map (fun v =>
          if v.id = exVouch.id then
            { v with limit_amount := v.limit_amount + 500, is_active := true }
          else v)) ∧
    (∀ a b : String, pairCount (createVouch dbOneVouch userCarol userAlice 500 2).1 a b ≤ 1) := by
  have hpair : ∀ a b : String, pairCount dbOneVouch a b ≤ 1 := by
    intro a b
    show (List.filter _ [exVouch]).length ≤ 1
    by_cases h : (exVouch.voucher_address = a ∧ exVouch.borrower_address = b) <;>
      simp [List.filter, h]
  refine ⟨⟨by decide, by decide, hpair⟩, ?_, ?_⟩
  · exact createVouch_merges_existing.1 dbOneVouch userCarol userAlice 500 2 exVouch
      (by decide) (by decide)
  · exact createVouch_merges_existing.2 dbOneVouch userCarol userAlice 500 2 hpair

section GarnishLemmas

/-- `List.find?` through a predicate-preserving map, generically. -/
theorem find?_map_pres {α : Type} (p : α → Bool) (f : α → α) (hf : ∀ x, p (f x) = p x) :
    ∀ l : List α, (l.map f).find? p = (l.find? p).map f := by
  intro l
  induction l with
  | nil => rfl
  | cons x t ih =>
    by_cases h : p x = true
    · simp [List.find?, hf, h]
    · simp only [List.map_cons, List.find?, hf]
      rw [Bool.not_eq_true] at h
      rw [h]
      exact ih

/-- With pairwise-distinct keys, searching a member's key finds that member. -/
theorem find?_key_of_mem {α κ : Type} [DecidableEq κ] (key : α → κ) :
    ∀ (l : List α), (l.map key).Nodup → ∀ d ∈ l,
      l.find? (fun x => decide (key x = key d)) = some d := by
  intro l
  induction l with
  | nil => intro _ d hd; cases hd
  | cons a t ih =>
    intro hnd d hd
    rw [List.map_cons, List.nodup_cons] at hnd
    rcases List.mem_cons.mp hd with h | h
    · subst h
      simp [List.find?]
    · by_cases hk : key a = key d
      · exact absurd (hk ▸ List.mem_map_of_mem key h) hnd.1
      · have hk2 : decide (key a = key d) = false := by simp [hk]
        simp only [List.find?, hk2]
        exact ih hnd.2 d h

theorem debts_stripENS (db : DB) (a : String) : (stripENS db a).debts = db.debts := by
  unfold stripENS
  cases findUser db a with
  | none => rfl
  | some u => by_cases h : u.ens_stripped <;> simp [h, setStripped]

theorem vouches_stripENS (db : DB) (a : String) : (stripENS db a).vouches = db.vouches := by
  unfold stripENS
  cases findUser db a with
  | none => rfl
  | some u => by_cases h : u.ens_stripped <;> simp [h, setStripped]

theorem payments_stripENS (db : DB) (a : String) : (stripENS db a).payments = db.payments := by
  unfold stripENS
  cases findUser db a with
  | none => rfl
  | some u => by_cases h : u.ens_stripped <;> simp [h, setStripped]

/-- `updateCreditScore` only touches `users` and `credit_history`. -/
theorem updateCreditScore_preserves (db : DB) (a : String) (c : Int) (r : ScoreReason) :
    ((updateCreditScore db a c r).1).debts = db.debts ∧
    ((updateCreditScore db a c r).1).vouches = db.vouches ∧
    ((updateCreditScore db a c r).1).payments = db.payments := by
  unfold updateCreditScore
  cases findUser db a with
  | none => exact ⟨rfl, rfl, rfl⟩
  | some u =>
    by_cases h : clampScore (u.credit_score + c) < ENS_STRIP_THRESHOLD <;>
      simp only [h, if_true, if_false]
    · refine ⟨?_, ?_, ?_⟩
      · rw [debts_stripENS]; rfl
      · rw [vouches_stripENS]; rfl
      · rw [payments_stripENS]; rfl
    · exact ⟨rfl, rfl, rfl⟩

theorem debts_releaseVouch (db : DB) (vid : Option Nat) (orig : Nat) :
    (releaseVouch db vid orig).debts = db.debts := by
  unfold releaseVouch
  split
  · rfl
  · split <;> rfl

theorem findDebt_setDebt (db : DB) (i j : Nat) (f : Debt → Debt)
    (hf : ∀ d, (f d).id = d.id) :
    findDebt (setDebt db j f) i =
      (findDebt db i).map (fun d => if d.id = j then f d else d) := by
  unfold findDebt setDebt
  exact find?_map_pres _ _
    (by intro x; by_cases h : x.id = j <;> simp [h, hf]) db.debts

theorem debts_setStripped (db : DB) (a : String) (b : Bool) :
    (setStripped db a b).debts = db.debts := rfl

theorem owedOf_congr (db1 db2 : DB) (h : db1.debts = db2.debts) (i : Nat) :
    owedOf db1 i = owedOf db2 i := by
  unfold owedOf findDebt
  rw [h]

theorem statusOf_congr (db1 db2 : DB) (h : db1.debts = db2.debts) (i : Nat) :
    statusOf db1 i = statusOf db2 i := by
  unfold statusOf findDebt
  rw [h]

/-- The debts table after the garnish full-payment block is the debts table
after the single paid-row update. -/
theorem debts_garnishPaidBlock (db : DB) (ua : String) (d : Debt) (now : Nat) :
    (garnishPaidBlock db ua d now).debts =
      (setDebt db d.id (fun x =>
        { x with amount_owed := 0, status := DebtStatus.paid, paid_at := some now })).debts := by
  unfold garnishPaidBlock
  split <;> (dsimp only; split) <;>
    first
      | rw [debts_setStripped, (updateCreditScore_preserves _ _ _ _).1, debts_releaseVouch]
      | rw [debts_setStripped, debts_releaseVouch]
      | rw [(updateCreditScore_preserves _ _ _ _).1, debts_releaseVouch]
      | rw [debts_releaseVouch]

/-- A successful garnish send reduces the selected debt by `g` and marks it
paid exactly when that clears it; no other field of the row matters here. -/
theorem garnishApply_debt (db : DB) (ua : String) (d : Debt) (g now : Nat)
    (hfind : findDebt db d.id = some d) :
    owedOf (garnishApply db ua d g now) d.id = some (d.amount_owed - g) ∧
    statusOf (garnishApply db ua d g now) d.id =
      some (if d.amount_owed - g = 0 then DebtStatus.paid else d.status) := by
  have hfind1 : findDebt (appendPayment db
      { debt_id := d.id, amount := g, payment_type := PaymentType.garnish }) d.id = some d :=
    hfind
  unfold garnishApply
  by_cases hz : d.amount_owed - g = 0
  · rw [if_pos hz]
    constructor
    · rw [owedOf_congr _ _ (debts_garnishPaidBlock _ _ _ _)]
      unfold owedOf
      rw [findDebt_setDebt _ _ _ _ (by intro x; rfl), hfind1]
      simp [hz]
    · rw [statusOf_congr _ _ (debts_garnishPaidBlock _ _ _ _)]
      unfold statusOf
      rw [findDebt_setDebt _ _ _ _ (by intro x; rfl), hfind1]
      simp [hz]
  · rw [if_neg hz]
    constructor
    · unfold owedOf
      rw [findDebt_setDebt _ _ _ _ (by intro x; rfl), hfind1]
      simp
    · unfold statusOf
      rw [findDebt_setDebt _ _ _ _ (by intro x; rfl), hfind1]
      simp [hz]

/-- Over exact arithmetic, `Math.floor(A * (p / 100))` is natural division:
`⌊A * (p / 100)⌋ = A * p / 100`. -/
theorem garnishFloor_eq (amount p : Nat) : garnishFloor amount p = amount * p / 100 := by
  unfold garnishFloor
  rw [show ((amount : ℚ) * ((p : ℚ) / 100)) = (((amount * p : Nat) : ℚ) / ((100 : Nat) : ℚ)) by
    push_cast
    ring]
  rw [Nat.floor_div_nat, Nat.floor_natCast]

end GarnishLemmas

/-- C1: on an incoming transfer of `amount` for a borrower with garnish
percentage `p` whose oldest active/overdue debt owes `d.amount_owed`, the
garnishment engine garnishes exactly `min(⌊amount * p / 100⌋, amount_owed)`,
retains `amount - garnish` for the user, accepts the transfer, reduces the
debt by the garnish, and marks the debt paid exactly when the garnish clears
the whole owed amount. -/
theorem garnish_amount_formula
    (db : DB) (borrower : String) (amount now : Nat) (u : UserRow) (d : Debt)
    (rest : List Debt)
    (hnodup : (db.debts.map (fun x => x.id)).Nodup)
    (hu : findUser db borrower = some u)
    (hauto : u.auto_repay_enabled = true)
    (hsort : sortDebtsByDueDate (activeDebtsFor db borrower) = d :: rest)
    (howed : 0 < d.amount_owed) :
    (onTransfer db borrower amount now true true).2.processed =
      some (min (amount * u.garnish_percentage / 100) d.amount_owed,
        amount - min (amount * u.garnish_percentage / 100) d.amount_owed) ∧
    (onTransfer db borrower amount now true true).2.accepted = true ∧
    owedOf (onTransfer db borrower amount now true true).1 d.id =
      some (d.amount_owed - min (amount * u.garnish_percentage / 100) d.amount_owed) ∧
    (statusOf (onTransfer db borrower amount now true true).1 d.id = some DebtStatus.paid ↔
      min (amount * u.garnish_percentage / 100) d.amount_owed = d.amount_owed) := by
  rw [← garnishFloor_eq amount u.garnish_percentage]
  have hmem : d ∈ activeDebtsFor db borrower := by
    have hms : d ∈ sortDebtsByDueDate (activeDebtsFor db borrower) := by
      rw [hsort]
      exact List.mem_cons_self d rest
    unfold sortDebtsByDueDate at hms
    exact (List.mem_insertionSort _).mp hms
  have hmemd : d ∈ db.debts := (List.mem_filter.mp hmem).1
  have hpred := (List.mem_filter.mp hmem).2
  rw [decide_eq_true_eq] at hpred
  have hnotpaid : d.status ≠ DebtStatus.paid := by
    rcases hpred.2 with h | h <;> rw [h] <;> decide
  have hfind : findDebt db d.id = some d := by
    unfold findDebt
    exact find?_key_of_mem (fun x : Debt => x.id) db.debts hnodup d hmemd
  have happly := garnishApply_debt db borrower d
    (min (garnishFloor amount u.garnish_percentage) d.amount_owed) now hfind
  unfold onTransfer
  simp only [hu]
  rw [if_neg (by simp [hauto])]
  rw [hsort]
  dsimp only
  by_cases hg0 : 0 < min (garnishFloor amount u.garnish_percentage) d.amount_owed
  · rw [if_pos ⟨hg0, trivial⟩, if_pos trivial]
    refine ⟨rfl, rfl, happly.1, ?_⟩
    rw [happly.2]
    by_cases hz : d.amount_owed - min (garnishFloor amount u.garnish_percentage) d.amount_owed = 0
    · have hge : min (garnishFloor amount u.garnish_percentage) d.amount_owed =
          d.amount_owed :=
        le_antisymm (min_le_right _ _) (Nat.le_of_sub_eq_zero hz)
      rw [if_pos hz]
      exact Iff.intro (fun _ => hge) (fun _ => rfl)
    · rw [if_neg hz]
      constructor
      · intro h
        exact absurd (Option.some.inj h) hnotpaid
      · intro h
        exact absurd (Nat.sub_eq_zero_of_le (le_of_eq h.symm)) hz
  · rw [if_neg (fun h => hg0 h.1)]
    have hg0' : min (garnishFloor amount u.garnish_percentage) d.amount_owed = 0 :=
      Nat.eq_zero_of_not_pos hg0
    refine ⟨rfl, rfl, ?_, ?_⟩
    · unfold owedOf
      rw [hfind, hg0']
      simp
    · rw [hg0']
      unfold statusOf
      rw [hfind]
      constructor
      · intro h
        exact absurd (Option.some.inj h) hnotpaid
      · intro h
        exact absurd h.symm (Nat.pos_iff_ne_zero.mp howed)

section DebtRowLemmas

theorem findDebt_congr (X Y : DB) (h : X.debts = Y.debts) (j : Nat) :
    findDebt X j = findDebt Y j := by
  unfold findDebt
  rw [h]

theorem findDebt_id {X : DB} {j : Nat} {d : Debt} (h : findDebt X j = some d) : d.id = j := by
  have := List.find?_some h
  simpa using this

theorem findDebt_mem {X : DB} {j : Nat} {d : Debt} (h : findDebt X j = some d) :
    d ∈ X.debts :=
  List.mem_of_find?_eq_some h

/-- With pairwise-distinct ids, two rows of the table sharing an id coincide. -/
theorem mem_eq_of_nodup_ids {l : List Debt} (hnd : (l.map (fun x => x.id)).Nodup)
    {a b : Debt} (ha : a ∈ l) (hb : b ∈ l) (hid : a.id = b.id) : a = b := by
  induction l with
  | nil => cases ha
  | cons x t ih =>
    rw [List.map_cons, List.nodup_cons] at hnd
    rcases List.mem_cons.mp ha with h1 | h1 <;> rcases List.mem_cons.mp hb with h2 | h2
    · rw [h1, h2]
    · subst h1
      exact absurd (hid ▸ List.mem_map_of_mem (fun x => x.id) h2) hnd.1
    · subst h2
      exact absurd (hid ▸ List.mem_map_of_mem (fun x => x.id) h1) hnd.1
    · exact ih hnd.2 h1 h2

theorem findDebt_of_mem {X : DB} (hnd : (X.debts.map (fun x => x.id)).Nodup)
    {d : Debt} (hd : d ∈ X.debts) : findDebt X d.id = some d := by
  unfold findDebt
  exact find?_key_of_mem (fun x : Debt => x.id) X.debts hnd d hd

theorem findDebt_appendPayment (X : DB) (p : Payment) (j : Nat) :
    findDebt (appendPayment X p) j = findDebt X j := rfl

theorem debts_repayFullBlock (db : DB) (b : String) (debt : Debt) (debtId now : Nat) :
    (repayFullBlock db b debt debtId now).debts =
      (setDebt db debtId (fun d =>
        { d with amount_owed := 0, status := DebtStatus.paid, paid_at := some now })).debts := by
  unfold repayFullBlock setDebt
  simp only []
  have h : (if now ≤ debt.due_date then
      (updateCreditScore (releaseVouch db debt.vouch_id debt.original_amount) b
        ON_TIME_BONUS (ScoreReason.onTimePayoff debtId)).1
    else releaseVouch db debt.vouch_id debt.original_amount).debts = db.debts := by
    split
    · rw [(updateCreditScore_preserves _ _ _ _).1, debts_releaseVouch]
    · rw [debts_releaseVouch]
  rw [h]

/-- Full row description of the debts table after `repayFullBlock`. -/
theorem findDebt_repayFullBlock (X : DB) (b : String) (debt : Debt) (debtId now j : Nat) :
    findDebt (repayFullBlock X b debt debtId now) j =
      (findDebt X j).map (fun x =>
        if x.id = debtId then
          { x with amount_owed := 0, status := DebtStatus.paid, paid_at := some now }
        else x) := by
  rw [findDebt_congr _ _ (debts_repayFullBlock X b debt debtId now) j]
  exact findDebt_setDebt X j debtId _ (by intro d; rfl)

/-- Full row description of the debts table after `garnishApply`. -/
theorem findDebt_garnishApply (X : DB) (ua : String) (d0 : Debt) (g now : Nat) (j : Nat) :
    findDebt (garnishApply X ua d0 g now) j =
      (findDebt X j).map (fun x =>
        if x.id = d0.id then
          (if d0.amount_owed - g = 0 then
            { x with amount_owed := 0, status := DebtStatus.paid, paid_at := some now }
          else { x with amount_owed := d0.amount_owed - g })
        else x) := by
  unfold garnishApply
  dsimp only
  by_cases hz : d0.amount_owed - g = 0
  · rw [if_pos hz]
    rw [findDebt_congr _ _ (debts_garnishPaidBlock _ _ _ _) j]
    rw [findDebt_setDebt _ _ _ _ (by intro d; rfl), findDebt_appendPayment]
    cases findDebt X j with
    | none => rfl
    | some x => by_cases hx : x.id = d0.id <;> simp [hx, hz]
  · rw [if_neg hz]
    rw [findDebt_setDebt _ _ _ _ (by intro d; rfl), findDebt_appendPayment]
    cases findDebt X j with
    | none => rfl
    | some x => by_cases hx : x.id = d0.id <;> simp [hx, hz]

theorem findDebt_sweepStep (X : DB) (e : Debt) (j : Nat) :
    findDebt (sweepStep X e) j =
      (findDebt X j).map (fun x =>
        if x.id = e.id then { x with status := DebtStatus.overdue } else x) := by
  unfold sweepStep
  rw [findDebt_congr _ _ ((updateCreditScore_preserves _ _ _ _).1) j]
  exact findDebt_setDebt X j e.id _ (by intro d; rfl)

/-- Full row description of the debts table after the overdue loop. -/
theorem findDebt_sweepFold :
    ∀ (sel : List Debt) (X : DB) (j : Nat),
      findDebt (sel.foldl sweepStep X) j =
        (findDebt X j).map (fun x =>
          if x.id ∈ sel.map (fun d => d.id) then { x with status := DebtStatus.overdue }
          else x) := by
  intro sel
  induction sel with
  | nil =>
    intro X j
    show findDebt X j = (findDebt X j).map _
    cases findDebt X j <;> simp
  | cons e t ih =>
    intro X j
    show findDebt (t.foldl sweepStep (sweepStep X e)) j = _
    rw [ih (sweepStep X e) j, findDebt_sweepStep]
    cases findDebt X j with
    | none => rfl
    | some x =>
      by_cases hx : x.id = e.id
      · by_cases hm : x.id ∈ t.map (fun d => d.id) <;> simp [hx, hm]
      · by_cases hm : x.id ∈ t.map (fun d => d.id) <;> simp [hx, hm]

theorem find?_id_append_left {l : List Debt} {j : Nat} {d : Debt}
    (h : l.find? (fun x => decide (x.id = j)) = some d) (extra : List Debt) :
    (l ++ extra).find? (fun x => decide (x.id = j)) = some d := by
  rw [List.find?_append, h]
  rfl

theorem debtTransAllowed_of_some_eq {s t : DebtStatus} (h : (some s : Option DebtStatus) = some t)
    (P : Prop) :
    debtTransAllowed s t ∧ (s = DebtStatus.defaulted → t = DebtStatus.defaulted ∨ P) := by
  have h2 := Option.some.inj h
  exact ⟨Or.inl h2, fun hd => Or.inl (h2 ▸ hd)⟩

theorem debtTransAllowed_to_paid (s : DebtStatus) (h : s ≠ DebtStatus.paid) :
    debtTransAllowed s DebtStatus.paid := by
  unfold debtTransAllowed
  cases s <;> revert h <;> decide

theorem debtTransAllowed_to_defaulted (s : DebtStatus)
    (h : ¬(s = DebtStatus.defaulted ∨ s = DebtStatus.paid)) :
    debtTransAllowed s DebtStatus.defaulted := by
  unfold debtTransAllowed
  cases s <;> revert h <;> decide

theorem debtTransAllowed_active_overdue :
    debtTransAllowed DebtStatus.active DebtStatus.overdue := by
  unfold debtTransAllowed
  decide

end DebtRowLemmas

/-- Witness for C1, the spec's scenario: a transfer of 100 with garnish
percentage 50 against a debt owing 40 garnishes min(⌊100·50/100⌋, 40) =
min(50, 40) = 40, leaves 60 with the user, and fully pays the debt. -/
theorem garnish_amount_formula_witness :
    ((dbGarnish.debts.map (fun x => x.id)).Nodup ∧
      findUser dbGarnish userAlice = some
        { wallet_address := userAlice, credit_score := 650, ens_stripped := false,
          garnish_percentage := 50, auto_repay_enabled := true } ∧
      sortDebtsByDueDate (activeDebtsFor dbGarnish userAlice) = exDebt1 :: [] ∧
      0 < exDebt1.amount_owed) ∧
    ((onTransfer dbGarnish userAlice 100 50 true true).2.processed =
        some (min (100 * 50 / 100) exDebt1.amount_owed,
          100 - min (100 * 50 / 100) exDebt1.amount_owed) ∧
      (onTransfer dbGarnish userAlice 100 50 true true).2.accepted = true ∧
      owedOf (onTransfer dbGarnish userAlice 100 50 true true).1 exDebt1.id =
        some (exDebt1.amount_owed - min (100 * 50 / 100) exDebt1.amount_owed) ∧
      (statusOf (onTransfer dbGarnish userAlice 100 50 true true).1 exDebt1.id =
          some DebtStatus.paid ↔
        min (100 * 50 / 100) exDebt1.amount_owed = exDebt1.amount_owed)) ∧
    min (100 * 50 / 100) exDebt1.amount_owed = 40 ∧
    100 - min (100 * 50 / 100) exDebt1.amount_owed = 60 := by
  refine ⟨⟨by decide, by decide, by decide, by decide⟩, ?_, by decide, by decide⟩
  exact garnish_amount_formula dbGarnish userAlice 100 50
    { wallet_address := userAlice, credit_score := 650, ens_stripped := false,
      garnish_percentage := 50, auto_repay_enabled := true } exDebt1 []
    (by decide) (by decide) (by decide) (by decide) (by decide)

/-- C9: when the outbound vault transfer fails (the send throws and lands in
the catch block), the garnishment callback writes nothing at all — no payment
row, no debt change, no vouch change, the whole store is untouched — while the
incoming transfer itself was still accepted. -/
theorem garnish_send_failure_atomic :
    ∀ (db : DB) (userAddress : String) (amount now : Nat) (vaultConfigured : Bool),
      (onTransfer db userAddress amount now vaultConfigured false).1 = db ∧
      (onTransfer db userAddress amount now vaultConfigured false).2.accepted = true := by
  intro db ua amount now vault
  unfold onTransfer
  cases hu : findUser db ua with
  | none => exact ⟨rfl, rfl⟩
  | some u =>
    simp only [hu]
    cases hb : u.auto_repay_enabled with
    | false => exact ⟨rfl, rfl⟩
    | true =>
      cases hl : sortDebtsByDueDate (activeDebtsFor db ua) with
      | nil => exact ⟨rfl, rfl⟩
      | cons d rest =>
        dsimp only
        by_cases hg : 0 < min (garnishFloor amount u.garnish_percentage) d.amount_owed ∧
            vault = true
        · rw [if_pos hg]
          exact ⟨rfl, rfl⟩
        · rw [if_neg hg]
          exact ⟨rfl, rfl⟩

/-- C5 counterexample: the claim says the 'defaulted' status is terminal under
every operation, but `repayDebt` only rejects debts whose status is 'paid'
(`if (debt.status === 'paid')`), so fully repaying a defaulted debt of 40
flips it to 'paid'. -/
theorem defaulted_not_terminal_cex :
    statusOf dbDefaulted 3 = some DebtStatus.defaulted ∧
    statusOf (applyOp dbDefaulted (Op.repay userAlice 3 40 9)) 3 = some DebtStatus.paid := by
  exact ⟨by decide, by decide⟩

/-- C5 (amended): debts move along
`active → overdue | paid | defaulted`, `overdue → paid | defaulted`, and —
through manual repayment only — `defaulted → paid`; garnishment, the overdue
sweep and default marking never move a defaulted debt. -/
theorem debt_status_transitions (db : DB) (op : Op) (debtId : Nat) (s t : DebtStatus)
    (hnodup : (db.debts.map (fun x => x.id)).Nodup)
    (hs : statusOf db debtId = some s)
    (ht : statusOf (applyOp db op) debtId = some t) :
    debtTransAllowed s t ∧
    (s = DebtStatus.defaulted →
      t = DebtStatus.defaulted ∨
        (t = DebtStatus.paid ∧ ∃ b amt now, op = Op.repay b debtId amt now)) := by
  obtain ⟨row, hrow, hrows⟩ : ∃ row, findDebt db debtId = some row ∧ row.status = s := by
    unfold statusOf at hs
    cases h : findDebt db debtId with
    | none => rw [h] at hs; simp at hs
    | some r => rw [h] at hs; exact ⟨r, rfl, Option.some.inj hs⟩
  have hrowid : row.id = debtId := findDebt_id hrow
  have hrowmem : row ∈ db.debts := findDebt_mem hrow
  cases op with
  | repay b dId amt now =>
    unfold applyOp at ht
    dsimp only at ht
    unfold repayDebt at ht
    cases hf : db.debts.find? (fun x => decide (x.id = dId ∧ x.borrower_address = b)) with
    | none =>
      rw [hf] at ht
      exact debtTransAllowed_of_some_eq (hs.symm.trans ht) _
    | some debt =>
      rw [hf] at ht
      dsimp only at ht
      have hdprops : debt.id = dId ∧ debt.borrower_address = b := by
        have := List.find?_some hf
        simpa using this
      by_cases hp : debt.status = DebtStatus.paid
      · rw [if_pos hp] at ht
        exact debtTransAllowed_of_some_eq (hs.symm.trans ht) _
      · rw [if_neg hp] at ht
        by_cases hz : debt.amount_owed - min amt debt.amount_owed = 0
        · rw [if_pos hz] at ht
          unfold statusOf at ht
          rw [findDebt_repayFullBlock, findDebt_appendPayment, hrow] at ht
          simp only [Option.map_some'] at ht
          by_cases hid : row.id = dId
          · have hroweq : row = debt :=
              mem_eq_of_nodup_ids hnodup hrowmem (List.mem_of_find?_eq_some hf)
                (by rw [hid, hdprops.1])
            rw [if_pos hid] at ht
            have ht2 : t = DebtStatus.paid := (Option.some.inj ht).symm
            have hsnp : s ≠ DebtStatus.paid := by
              rw [← hrows, hroweq]
              exact hp
            have hdd : dId = debtId := by rw [← hid, hrowid]
            constructor
            · rw [ht2]
              exact debtTransAllowed_to_paid s hsnp
            · intro _
              exact Or.inr ⟨ht2, b, amt, now, by rw [hdd]⟩
          · rw [if_neg hid] at ht
            have hst : s = t := by
              rw [← hrows]
              exact Option.some.inj ht
            exact ⟨Or.inl hst, fun hd => Or.inl (hst ▸ hd)⟩
        · rw [if_neg hz] at ht
          unfold statusOf at ht
          rw [findDebt_setDebt _ _ _ _ (by intro d; rfl), findDebt_appendPayment, hrow] at ht
          simp only [Option.map_some'] at ht
          by_cases hid : row.id = dId
          · rw [if_pos hid] at ht
            have hst : s = t := by
              rw [← hrows]
              exact Option.some.inj ht
            exact ⟨Or.inl hst, fun hd => Or.inl (hst ▸ hd)⟩
          · rw [if_neg hid] at ht
            have hst : s = t := by
              rw [← hrows]
              exact Option.some.inj ht
            exact ⟨Or.inl hst, fun hd => Or.inl (hst ▸ hd)⟩
  | transfer b A now vlt ok =>
    unfold applyOp at ht
    dsimp only at ht
    unfold onTransfer at ht
    cases hu : findUser db b with
    | none =>
      rw [hu] at ht
      dsimp only at ht
      rw [if_pos rfl] at ht
      exact debtTransAllowed_of_some_eq (hs.symm.trans ht) _
    | some u =>
      rw [hu] at ht
      dsimp only at ht
      cases hb : u.auto_repay_enabled with
      | false =>
        rw [hb] at ht
        rw [if_pos rfl] at ht
        exact debtTransAllowed_of_some_eq (hs.symm.trans ht) _
      | true =>
        rw [hb] at ht
        rw [if_neg (by decide : ¬(true = false))] at ht
        cases hl : sortDebtsByDueDate (activeDebtsFor db b) with
        | nil =>
          rw [hl] at ht
          dsimp only at ht
          exact debtTransAllowed_of_some_eq (hs.symm.trans ht) _
        | cons d0 tl =>
          rw [hl] at ht
          dsimp only at ht
          have hd0act : d0 ∈ activeDebtsFor db b := by
            have hms : d0 ∈ sortDebtsByDueDate (activeDebtsFor db b) := by
              rw [hl]
              exact List.mem_cons_self d0 tl
            unfold sortDebtsByDueDate at hms
            exact (List.mem_insertionSort _).mp hms
          have hd0mem : d0 ∈ db.debts := (List.mem_filter.mp hd0act).1
          have hd0pred := (List.mem_filter.mp hd0act).2
          rw [decide_eq_true_eq] at hd0pred
          by_cases hg : 0 < min (garnishFloor A u.garnish_percentage) d0.amount_owed ∧
              vlt = true
          · rw [if_pos hg] at ht
            cases ok with
            | false =>
              rw [if_neg (by decide : ¬(false = true))] at ht
              exact debtTransAllowed_of_some_eq (hs.symm.trans ht) _
            | true =>
              rw [if_pos rfl] at ht
              dsimp only at ht
              unfold statusOf at ht
              rw [findDebt_garnishApply, hrow] at ht
              simp only [Option.map_some'] at ht
              by_cases hid : row.id = d0.id
              · rw [if_pos hid] at ht
                have hroweq : row = d0 :=
                  mem_eq_of_nodup_ids hnodup hrowmem hd0mem hid
                have hsao : s = DebtStatus.active ∨ s = DebtStatus.overdue := by
                  rw [← hrows, hroweq]
                  exact hd0pred.2
                by_cases hz : d0.amount_owed -
                    min (garnishFloor A u.garnish_percentage) d0.amount_owed = 0
                · rw [if_pos hz] at ht
                  have ht2 : t = DebtStatus.paid := (Option.some.inj ht).symm
                  constructor
                  · rw [ht2]
                    refine debtTransAllowed_to_paid s ?_
                    rcases hsao with h | h <;> rw [h] <;> decide
                  · intro hd
                    rcases hsao with h | h <;> rw [hd] at h <;> exact absurd h (by decide)
                · rw [if_neg hz] at ht
                  have hst : s = t := by
                    rw [← hrows]
                    exact Option.some.inj ht
                  exact ⟨Or.inl hst, fun hd => Or.inl (hst ▸ hd)⟩
              · rw [if_neg hid] at ht
                have hst : s = t := by
                  rw [← hrows]
                  exact Option.some.inj ht
                exact ⟨Or.inl hst, fun hd => Or.inl (hst ▸ hd)⟩
          · rw [if_neg hg] at ht
            exact debtTransAllowed_of_some_eq (hs.symm.trans ht) _
  | sweep now =>
    unfold applyOp at ht
    dsimp only at ht
    unfold checkOverdueDebts at ht
    dsimp only at ht
    unfold statusOf at ht
    rw [findDebt_sweepFold, hrow] at ht
    simp only [Option.map_some'] at ht
    by_cases hm : row.id ∈ (db.debts.filter (fun d =>
        decide (d.status = DebtStatus.active ∧ d.due_date < now))).map (fun d => d.id)
    · rw [if_pos hm] at ht
      have ht2 : t = DebtStatus.overdue := (Option.some.inj ht).symm
      obtain ⟨e, hemem, heid⟩ := List.mem_map.mp hm
      have hefil := List.mem_filter.mp hemem
      have hepred := hefil.2
      rw [decide_eq_true_eq] at hepred
      have hroweq : row = e := mem_eq_of_nodup_ids hnodup hrowmem hefil.1 heid.symm
      have hsa : s = DebtStatus.active := by
        rw [← hrows, hroweq]
        exact hepred.1
      constructor
      · rw [hsa, ht2]
        exact debtTransAllowed_active_overdue
      · intro hd
        rw [hd] at hsa
        exact absurd hsa (by decide)
    · rw [if_neg hm] at ht
      have hst : s = t := by
        rw [← hrows]
        exact Option.some.inj ht
      exact ⟨Or.inl hst, fun hd => Or.inl (hst ▸ hd)⟩
  | markDefault dId =>
    unfold applyOp at ht
    dsimp only at ht
    unfold markDebtDefaulted at ht
    cases hf : findDebt db dId with
    | none =>
      rw [hf] at ht
      exact debtTransAllowed_of_some_eq (hs.symm.trans ht) _
    | some debt =>
      rw [hf] at ht
      dsimp only at ht
      by_cases hp : debt.status = DebtStatus.defaulted ∨ debt.status = DebtStatus.paid
      · rw [if_pos hp] at ht
        exact debtTransAllowed_of_some_eq (hs.symm.trans ht) _
      · rw [if_neg hp] at ht
        unfold statusOf at ht
        rw [findDebt_congr _ _ ((updateCreditScore_preserves _ _ _ _).1) debtId] at ht
        rw [findDebt_setDebt _ _ _ _ (by intro d; rfl), hrow] at ht
        simp only [Option.map_some'] at ht
        by_cases hid : row.id = dId
        · rw [if_pos hid] at ht
          have ht2 : t = DebtStatus.defaulted := (Option.some.inj ht).symm
          have hroweq : row = debt :=
            mem_eq_of_nodup_ids hnodup hrowmem (findDebt_mem hf)
              (by rw [hid, findDebt_id hf])
          have hsnp : ¬(s = DebtStatus.defaulted ∨ s = DebtStatus.paid) := by
            rw [← hrows, hroweq]
            exact hp
          constructor
          · rw [ht2]
            exact debtTransAllowed_to_defaulted s hsnp
          · intro hd
            exact absurd (Or.inl hd) hsnp
        · rw [if_neg hid] at ht
          have hst : s = t := by
            rw [← hrows]
            exact Option.some.inj ht
          exact ⟨Or.inl hst, fun hd => Or.inl (hst ▸ hd)⟩
  | doBorrow b R dueMs nextId =>
    unfold applyOp at ht
    dsimp only at ht
    unfold borrow at ht
    dsimp only at ht
    split at ht
    · exact debtTransAllowed_of_some_eq (hs.symm.trans ht) _
    · split at ht
      · exact debtTransAllowed_of_some_eq (hs.symm.trans ht) _
      · split at ht <;>
          · dsimp only at ht
            unfold statusOf findDebt at ht
            dsimp only at ht
            rw [find?_id_append_left hrow] at ht
            simp only [Option.map_some'] at ht
            have hst : s = t := by
              rw [← hrows]
              exact Option.some.inj ht
            exact ⟨Or.inl hst, fun hd => Or.inl (hst ▸ hd)⟩

section SweepLemmas

theorem credit_history_updateCreditScore (db : DB) (a : String) (c : Int) (r : ScoreReason) :
    ((updateCreditScore db a c r).1).credit_history =
      if (findUser db a).isSome = true then
        db.credit_history ++
          [{ wallet_address := a,
             old_score := ((findUser db a).map (fun u => u.credit_score)).getD 0,
             new_score := clampScore ((((findUser db a).map
               (fun u => u.credit_score)).getD 0) + c), reason := r }]
      else db.credit_history := by
  unfold updateCreditScore
  cases hu : findUser db a with
  | none => simp
  | some u =>
    simp only [Option.isSome_some, Option.map_some', Option.getD_some, if_pos]
    by_cases h : clampScore (u.credit_score + c) < ENS_STRIP_THRESHOLD <;>
      simp only [h, if_true, if_false, credit_history_stripENS] <;>
      exact credit_history_afterScoreWrite db a _ _ r

/-- One `updateCreditScore` call changes the late-penalty count of debt `j` by
one exactly when its reason is the late-payment penalty for `j` and the user
row exists. -/
theorem latePenaltyCount_updateCreditScore (db : DB) (a : String) (c : Int) (k j : Nat) :
    latePenaltyCount ((updateCreditScore db a c (ScoreReason.latePayment k)).1) j =
      latePenaltyCount db j +
        (if k = j ∧ (findUser db a).isSome = true then 1 else 0) := by
  unfold latePenaltyCount
  rw [credit_history_updateCreditScore]
  by_cases hu : (findUser db a).isSome = true
  · rw [if_pos hu]
    rw [List.filter_append, List.length_append]
    by_cases hkj : k = j
    · rw [if_pos ⟨hkj, hu⟩]
      simp [List.filter, hkj]
    · have : ¬(k = j ∧ (findUser db a).isSome = true) := fun h => hkj h.1
      rw [if_neg this]
      have hne : ¬(ScoreReason.latePayment k = ScoreReason.latePayment j) := by
        intro h
        cases h
        exact hkj rfl
      simp [List.filter, hne]
  · rw [if_neg hu]
    have : ¬(k = j ∧ (findUser db a).isSome = true) := fun h => hu h.2
    rw [if_neg this]
    simp

theorem latePenaltyCount_setDebt (db : DB) (i : Nat) (f : Debt → Debt) (j : Nat) :
    latePenaltyCount (setDebt db i f) j = latePenaltyCount db j := rfl

theorem findUser_isSome_setDebt (db : DB) (i : Nat) (f : Debt → Debt) (a : String) :
    (findUser (setDebt db i f) a).isSome = (findUser db a).isSome := rfl

theorem findUser_isSome_sweepStep (X : DB) (e : Debt) (a : String) :
    (findUser (sweepStep X e) a).isSome = (findUser X a).isSome := by
  unfold sweepStep
  rw [findUser_updateCreditScore_isSome]
  rfl

theorem latePenaltyCount_sweepStep (X : DB) (e : Debt) (j : Nat) :
    latePenaltyCount (sweepStep X e) j =
      latePenaltyCount X j +
        (if e.id = j ∧ (findUser X e.borrower_address).isSome = true then 1 else 0) := by
  unfold sweepStep
  rw [latePenaltyCount_updateCreditScore]
  rfl

theorem sweepFold_count_notmem :
    ∀ (sel : List Debt) (X : DB) (j : Nat), j ∉ sel.map (fun d => d.id) →
      latePenaltyCount (sel.foldl sweepStep X) j = latePenaltyCount X j := by
  intro sel
  induction sel with
  | nil => intro X j _; rfl
  | cons e t ih =>
    intro X j hj
    rw [List.map_cons, List.mem_cons] at hj
    push_neg at hj
    show latePenaltyCount (t.foldl sweepStep (sweepStep X e)) j = _
    rw [ih (sweepStep X e) j hj.2, latePenaltyCount_sweepStep]
    have : ¬(e.id = j ∧ (findUser X e.borrower_address).isSome = true) := fun h =>
      hj.1 h.1.symm
    rw [if_neg this]
    rfl

theorem sweepFold_count_mem :
    ∀ (sel : List Debt) (X : DB) (j : Nat), (sel.map (fun d => d.id)).Nodup →
      ∀ e ∈ sel, e.id = j → (findUser X e.borrower_address).isSome = true →
      latePenaltyCount (sel.foldl sweepStep X) j = latePenaltyCount X j + 1 := by
  intro sel
  induction sel with
  | nil => intro X j _ e he; cases he
  | cons a t ih =>
    intro X j hnd e he heid hu
    rw [List.map_cons, List.nodup_cons] at hnd
    show latePenaltyCount (t.foldl sweepStep (sweepStep X a)) j = _
    rcases List.mem_cons.mp he with h1 | h1
    · subst h1
      have hnm : j ∉ t.map (fun d => d.id) := heid ▸ hnd.1
      rw [sweepFold_count_notmem t _ j hnm, latePenaltyCount_sweepStep,
        if_pos ⟨heid, hu⟩]
    · have haj : a.id ≠ j := by
        intro h
        exact hnd.1 (h ▸ heid ▸ List.mem_map_of_mem (fun d => d.id) h1)
      rw [ih (sweepStep X a) j hnd.2 e h1 heid
        (by rw [findUser_isSome_sweepStep]; exact hu), latePenaltyCount_sweepStep]
      rw [if_neg (fun h => haj h.1)]

theorem debts_ids_sweepStep (X : DB) (e : Debt) :
    ((sweepStep X e).debts).map (fun d => d.id) = X.debts.map (fun d => d.id) := by
  unfold sweepStep
  rw [(updateCreditScore_preserves _ _ _ _).1]
  unfold setDebt
  dsimp only
  rw [List.map_map]
  apply List.map_congr_left
  intro d _
  by_cases h : d.id = e.id <;> simp [h]

theorem debts_ids_sweepFold :
    ∀ (sel : List Debt) (X : DB),
      ((sel.foldl sweepStep X).debts).map (fun d => d.id) =
        X.debts.map (fun d => d.id) := by
  intro sel
  induction sel with
  | nil => intro X; rfl
  | cons e t ih =>
    intro X
    show ((t.foldl sweepStep (sweepStep X e)).debts).map _ = _
    rw [ih (sweepStep X e), debts_ids_sweepStep]

theorem findUser_isSome_sweepFold :
    ∀ (sel : List Debt) (X : DB) (a : String),
      (findUser (sel.foldl sweepStep X) a).isSome = (findUser X a).isSome := by
  intro sel
  induction sel with
  | nil => intro X a; rfl
  | cons e t ih =>
    intro X a
    show (findUser (t.foldl sweepStep (sweepStep X e)) a).isSome = _
    rw [ih (sweepStep X e), findUser_isSome_sweepStep]

end SweepLemmas

/-- C8: the overdue sweep is idempotent per debt.  One run over an active
debt whose due date has passed flips it to 'overdue' and logs exactly one
late-payment penalty for it; any number of further runs leave the debt
'overdue' and log no further penalty for it, because the sweep only selects
debts whose status is still 'active'. -/
theorem overdue_sweep_idempotent (db : DB) (debtId now : Nat) (d : Debt)
    (hnodup : (db.debts.map (fun x => x.id)).Nodup)
    (hfind : findDebt db debtId = some d)
    (hactive : d.status = DebtStatus.active)
    (hdue : d.due_date < now)
    (huser : (findUser db d.borrower_address).isSome = true) :
    statusOf (checkOverdueDebts db now).1 debtId = some DebtStatus.overdue ∧
    latePenaltyCount (checkOverdueDebts db now).1 debtId = latePenaltyCount db debtId + 1 ∧
    ∀ nows : List Nat,
      statusOf (sweepMany (checkOverdueDebts db now).1 nows) debtId =
        some DebtStatus.overdue ∧
      latePenaltyCount (sweepMany (checkOverdueDebts db now).1 nows) debtId =
        latePenaltyCount (checkOverdueDebts db now).1 debtId := by
  have hdid : d.id = debtId := findDebt_id hfind
  have hdmem : d ∈ db.debts := findDebt_mem hfind
  have hdsel : d ∈ db.debts.filter (fun x =>
      decide (x.status = DebtStatus.active ∧ x.due_date < now)) := by
    rw [List.mem_filter]
    exact ⟨hdmem, by rw [decide_eq_true_eq]; exact ⟨hactive, hdue⟩⟩
  have hselnd : ((db.debts.filter (fun x =>
      decide (x.status = DebtStatus.active ∧ x.due_date < now))).map
        (fun x => x.id)).Nodup :=
    List.Nodup.sublist
      (List.Sublist.map (fun x : Debt => x.id) (List.filter_sublist db.debts)) hnodup
  have hstat1 : statusOf (checkOverdueDebts db now).1 debtId = some DebtStatus.overdue := by
    show statusOf (List.foldl sweepStep db _) debtId = _
    unfold statusOf
    rw [findDebt_sweepFold, hfind]
    simp only [Option.map_some']
    have hmem2 : d.id ∈ (db.debts.filter (fun x =>
        decide (x.status = DebtStatus.active ∧ x.due_date < now))).map (fun x => x.id) :=
      List.mem_map_of_mem (fun x => x.id) hdsel
    rw [if_pos hmem2]
  have hfind1 : ∃ r, findDebt (checkOverdueDebts db now).1 debtId = some r ∧
      r.status = DebtStatus.overdue := by
    unfold statusOf at hstat1
    cases h : findDebt (checkOverdueDebts db now).1 debtId with
    | none => rw [h] at hstat1; simp at hstat1
    | some r =>
      rw [h] at hstat1
      exact ⟨r, rfl, Option.some.inj hstat1⟩
  refine ⟨hstat1, ?_, ?_⟩
  · show latePenaltyCount (List.foldl sweepStep db _) debtId = _
    exact sweepFold_count_mem _ db debtId hselnd d hdsel hdid huser
  · have hnd1 : (((checkOverdueDebts db now).1).debts.map (fun x => x.id)).Nodup := by
      show (((List.foldl sweepStep db _).debts).map (fun x => x.id)).Nodup
      rw [debts_ids_sweepFold]
      exact hnodup
    obtain ⟨r1, hr1, hr1s⟩ := hfind1
    have key : ∀ (nows : List Nat) (X : DB) (r : Debt),
        (X.debts.map (fun x => x.id)).Nodup →
        findDebt X debtId = some r → r.status = DebtStatus.overdue →
        statusOf (sweepMany X nows) debtId = some DebtStatus.overdue ∧
        latePenaltyCount (sweepMany X nows) debtId = latePenaltyCount X debtId := by
      intro nows
      induction nows with
      | nil =>
        intro X r _ hfr hrs
        constructor
        · unfold sweepMany statusOf
          rw [List.foldl_nil, hfr]
          simp only [Option.map_some', hrs]
        · rfl
      | cons n t ih =>
        intro X r hnX hfr hrs
        have hnotsel : debtId ∉ (X.debts.filter (fun x =>
            decide (x.status = DebtStatus.active ∧ x.due_date < n))).map
              (fun x => x.id) := by
          intro hin
          obtain ⟨e, hemem, heid⟩ := List.mem_map.mp hin
          have hefil := List.mem_filter.mp hemem
          have hepred := hefil.2
          rw [decide_eq_true_eq] at hepred
          have : e = r := mem_eq_of_nodup_ids hnX hefil.1 (findDebt_mem hfr)
            (by rw [heid, findDebt_id hfr])
          rw [this, hrs] at hepred
          exact absurd hepred.1 (by decide)
        have hstep : sweepMany X (n :: t) =
            sweepMany ((checkOverdueDebts X n).1) t := rfl
        have hXn : ∃ r2, findDebt ((checkOverdueDebts X n).1) debtId = some r2 ∧
            r2.status = DebtStatus.overdue := by
          show ∃ r2, findDebt (List.foldl sweepStep X _) debtId = some r2 ∧ _
          rw [findDebt_sweepFold, hfr]
          simp only [Option.map_some']
          by_cases hm : r.id ∈ (X.debts.filter (fun x =>
              decide (x.status = DebtStatus.active ∧ x.due_date < n))).map (fun x => x.id)
          · rw [if_pos hm]
            exact ⟨_, rfl, rfl⟩
          · rw [if_neg hm]
            exact ⟨_, rfl, hrs⟩
        have hnd' : ((((checkOverdueDebts X n).1).debts).map (fun x => x.id)).Nodup := by
          show (((List.foldl sweepStep X _).debts).map (fun x => x.id)).Nodup
          rw [debts_ids_sweepFold]
          exact hnX
        have hcount : latePenaltyCount ((checkOverdueDebts X n).1) debtId =
            latePenaltyCount X debtId := by
          show latePenaltyCount (List.foldl sweepStep X _) debtId = _
          exact sweepFold_count_notmem _ X debtId hnotsel
        obtain ⟨r2, hr2, hr2s⟩ := hXn
        have := ih ((checkOverdueDebts X n).1) r2 hnd' hr2 hr2s
        rw [hstep]
        exact ⟨this.1, this.2.trans hcount⟩
    intro nows
    exact key nows ((checkOverdueDebts db now).1) r1 hnd1 hr1 hr1s

/-- Witness for C8: alice's active debt (owing 40, due at 100) swept at time
200 becomes overdue with exactly one penalty entry; two further sweeps change
nothing for it. -/
theorem overdue_sweep_idempotent_witness :
    ((dbGarnish.debts.map (fun x => x.id)).Nodup ∧
      findDebt dbGarnish 1 = some exDebt1 ∧
      exDebt1.status = DebtStatus.active ∧
      exDebt1.due_date < 200 ∧
      (findUser dbGarnish exDebt1.borrower_address).isSome = true) ∧
    (statusOf (checkOverdueDebts dbGarnish 200).1 1 = some DebtStatus.overdue ∧
      latePenaltyCount (checkOverdueDebts dbGarnish 200).1 1 =
        latePenaltyCount dbGarnish 1 + 1 ∧
      (statusOf (sweepMany (checkOverdueDebts dbGarnish 200).1 [300, 400]) 1 =
          some DebtStatus.overdue ∧
        latePenaltyCount (sweepMany (checkOverdueDebts dbGarnish 200).1 [300, 400]) 1 =
          latePenaltyCount (checkOverdueDebts dbGarnish 200).1 1)) := by
  refine ⟨⟨by decide, by decide, by decide, by decide, by decide⟩, ?_⟩
  obtain ⟨h1, h2, h3⟩ := overdue_sweep_idempotent dbGarnish 1 200 exDebt1
    (by decide) (by decide) (by decide) (by decide) (by decide)
  exact ⟨h1, h2, h3 [300, 400]⟩

section ClientLemmas

theorem handleAuth_true (m : InMsg) : handleAuth true m = true := by
  unfold handleAuth
  split <;> rfl

theorem handleAuth_of_ne {a : Bool} {m : InMsg} (h : m ≠ InMsg.authVerify) :
    handleAuth a m = a := by
  unfold handleAuth
  rw [if_neg h]

theorem resolveFlags_true_count : ∀ msgs : List InMsg,
    (resolveFlags true msgs).count true = 0 := by
  intro msgs
  induction msgs with
  | nil => rfl
  | cons m ms ih =>
    show ((decide (true = false ∧ handleAuth true m = true)) ::
        resolveFlags (handleAuth true m) ms).count true = 0
    rw [handleAuth_true]
    simpa [List.count_cons] using ih

theorem stepClient_schedule_of_max {s : BankClientState}
    (h : s.maxReconnectAttempts = 0) : (stepClient s ClientEvent.wsClose).2 = none := by
  unfold stepClient attemptReconnect
  rw [show ({ s with isAuthenticated := false, wsOpen := false } : BankClientState).maxReconnectAttempts = 0 from h]
  rw [if_pos (Nat.zero_le _)]

theorem stepClient_max_zero {s : BankClientState} (h : s.maxReconnectAttempts = 0) :
    ∀ e : ClientEvent, (stepClient s e).1.maxReconnectAttempts = 0 := by
  intro e
  cases e with
  | wsClose =>
    unfold stepClient attemptReconnect
    rw [show ({ s with isAuthenticated := false, wsOpen := false } : BankClientState).maxReconnectAttempts = 0 from h]
    rw [if_pos (Nat.zero_le _)]
  | initSucceeded => exact h
  | disconnectCall => rfl

theorem runClient_none_of_max_zero : ∀ (evs : List ClientEvent) (s : BankClientState),
    s.maxReconnectAttempts = 0 → ∀ d ∈ runClient s evs, d = none := by
  intro evs
  induction evs with
  | nil => intro s _ d hd; cases hd
  | cons e es ih =>
    intro s h0 d hd
    rcases List.mem_cons.mp hd with h1 | h1
    · rw [h1]
      cases e with
      | wsClose => exact stepClient_schedule_of_max h0
      | initSucceeded => rfl
      | disconnectCall => rfl
    · exact ih (stepClient s e).1 (stepClient_max_zero h0 e) d h1

end ClientLemmas

theorem resolveFlags_false_count : ∀ msgs : List InMsg,
    (resolveFlags false msgs).count true =
      if InMsg.authVerify ∈ msgs then 1 else 0 := by
  intro msgs
  induction msgs with
  | nil => rfl
  | cons m ms ih =>
    show ((decide (false = false ∧ handleAuth false m = true)) ::
        resolveFlags (handleAuth false m) ms).count true = _
    by_cases hm : m = InMsg.authVerify
    · subst hm
      rw [show handleAuth false InMsg.authVerify = true from rfl]
      simp [List.count_cons, resolveFlags_true_count ms]
    · rw [handleAuth_of_ne hm]
      have hne : InMsg.authVerify ≠ m := Ne.symm hm
      simp [List.count_cons, ih, hne]

theorem initOutcome_timeout : ∀ events : List (Nat × InMsg),
    (∀ e ∈ events, e.2 = InMsg.authVerify → initDeadlineMs ≤ e.1) →
    initOutcome false events = InitOutcome.timedOut := by
  intro events
  induction events with
  | nil => intro _; rfl
  | cons e rest ih =>
    intro h
    obtain ⟨t, m⟩ := e
    unfold initOutcome
    by_cases ht : initDeadlineMs ≤ t
    · rw [if_pos ht]
    · rw [if_neg ht]
      by_cases hm : m = InMsg.authVerify
      · exact absurd (h (t, m) (List.mem_cons_self _ _) hm) ht
      · rw [if_neg (fun hc => Bool.false_ne_true (by
          have h2 := hc.2
          rw [handleAuth_of_ne hm] at h2
          exact h2))]
        rw [handleAuth_of_ne hm]
        exact ih (fun x hx hxv => h x (List.mem_cons_of_mem _ hx) hxv)

theorem initOutcome_resolves : ∀ (pre : List (Nat × InMsg)) (t : Nat)
    (rest : List (Nat × InMsg)),
    (∀ e ∈ pre, e.2 ≠ InMsg.authVerify) →
    (∀ e ∈ pre, e.1 < initDeadlineMs) →
    t < initDeadlineMs →
    initOutcome false (pre ++ (t, InMsg.authVerify) :: rest) =
      InitOutcome.resolvedAt t := by
  intro pre
  induction pre with
  | nil =>
    intro t rest _ _ ht
    show initOutcome false ((t, InMsg.authVerify) :: rest) = _
    unfold initOutcome
    rw [if_neg (not_le.mpr ht)]
    rw [if_pos ⟨rfl, rfl⟩]
  | cons e pre' ih =>
    intro t rest hnv hlt ht
    obtain ⟨te, me⟩ := e
    show initOutcome false ((te, me) :: (pre' ++ (t, InMsg.authVerify) :: rest)) = _
    unfold initOutcome
    rw [if_neg (not_le.mpr (hlt (te, me) (List.mem_cons_self _ _)))]
    have hme : me ≠ InMsg.authVerify := hnv (te, me) (List.mem_cons_self _ _)
    rw [if_neg (fun hc => Bool.false_ne_true (by
      have h2 := hc.2
      rw [handleAuth_of_ne hme] at h2
      exact h2))]
    rw [handleAuth_of_ne hme]
    exact ih t rest (fun x hx => hnv x (List.mem_cons_of_mem _ hx))
      (fun x hx => hlt x (List.mem_cons_of_mem _ hx)) ht

/-- C6 counterexample: a call to `init()` on an already-authenticated client
is not a no-op reporting "already running": `init()` has no branch on
`isAuthenticated` — it opens a fresh socket and re-sends the auth request;
the "Agent already running" response exists only in the POST /connect
handler. -/
theorem init_reentrant_cex :
    authedClient.isReady = true ∧
    (initStart authedClient).opensNewSocket = true ∧
    (initStart authedClient).sendsAuthRequestOnOpen = true ∧
    (initStart authedClient).reportsAlreadyRunning = false :=
  ⟨rfl, rfl, rfl, rfl⟩

/-- C6 (amended): the "already running" no-op guard lives in POST /connect —
when the stored agent's `isReady()` is true the handler answers
"Agent already running" without invoking `init()`; `init()` itself always
re-runs the handshake, its promise resolves exactly once, at the first
transition into `Authenticated`, and it settles with a timeout error when
`Authenticated` is not reached within 30 s. -/
theorem init_resolves_once_with_timeout :
    (∀ (agents : List (String × BankClientState)) (addr : String),
        connectIsReady agents addr = true →
        connectAction agents addr = ConnectAction.alreadyRunning) ∧
    (∀ msgs : List InMsg, (resolveFlags false msgs).count true ≤ 1) ∧
    (∀ msgs : List InMsg, InMsg.authVerify ∈ msgs →
        (resolveFlags false msgs).count true = 1) ∧
    (∀ events : List (Nat × InMsg),
        (∀ e ∈ events, e.2 = InMsg.authVerify → initDeadlineMs ≤ e.1) →
        initOutcome false events = InitOutcome.timedOut) ∧
    (∀ (pre : List (Nat × InMsg)) (t : Nat) (rest : List (Nat × InMsg)),
        (∀ e ∈ pre, e.2 ≠ InMsg.authVerify) →
        (∀ e ∈ pre, e.1 < initDeadlineMs) →
        t < initDeadlineMs →
        initOutcome false (pre ++ (t, InMsg.authVerify) :: rest) =
          InitOutcome.resolvedAt t) := by
  refine ⟨?_, ?_, ?_, initOutcome_timeout, initOutcome_resolves⟩
  · intro agents addr h
    unfold connectAction
    rw [if_pos h]
  · intro msgs
    rw [resolveFlags_false_count]
    split <;> omega
  · intro msgs hm
    rw [resolveFlags_false_count, if_pos hm]

/-- Witness for the amended C6: the ready agent registry answers
"already running"; over the trace challenge–verify–balances–verify the
promise resolves exactly once (the second `auth_verify` does not re-resolve);
an `auth_verify` arriving at 31 000 ms times out; one arriving at 10 000 ms
after a challenge at 5 000 ms resolves at 10 000 ms. -/
theorem init_resolves_once_with_timeout_witness :
    (connectIsReady [(userAlice, authedClient)] userAlice = true ∧
      connectAction [(userAlice, authedClient)] userAlice = ConnectAction.alreadyRunning) ∧
    ((resolveFlags false [InMsg.authChallenge, InMsg.authVerify, InMsg.ledgerBalances,
        InMsg.authVerify]).count true ≤ 1 ∧
      InMsg.authVerify ∈ [InMsg.authChallenge, InMsg.authVerify, InMsg.ledgerBalances,
        InMsg.authVerify] ∧
      (resolveFlags false [InMsg.authChallenge, InMsg.authVerify, InMsg.ledgerBalances,
        InMsg.authVerify]).count true = 1) ∧
    ((∀ e ∈ [((31000 : Nat), InMsg.authVerify)], e.2 = InMsg.authVerify →
        initDeadlineMs ≤ e.1) ∧
      initOutcome false [(31000, InMsg.authVerify)] = InitOutcome.timedOut) ∧
    ((∀ e ∈ [((5000 : Nat), InMsg.authChallenge)], e.2 ≠ InMsg.authVerify) ∧
      (∀ e ∈ [((5000 : Nat), InMsg.authChallenge)], e.1 < initDeadlineMs) ∧
      (10000 : Nat) < initDeadlineMs ∧
      initOutcome false ([(5000, InMsg.authChallenge)] ++
        (10000, InMsg.authVerify) :: []) = InitOutcome.resolvedAt 10000) := by
  obtain ⟨h1, h2, h3, h4, h5⟩ := init_resolves_once_with_timeout
  refine ⟨⟨by decide, h1 _ _ (by decide)⟩, ⟨h2 _, by decide, h3 _ (by decide)⟩,
    ⟨by decide, h4 _ (by decide)⟩, ⟨by decide, by decide, by decide, ?_⟩⟩
  exact h5 [(5000, InMsg.authChallenge)] 10000 [] (by decide) (by decide) (by decide)

/-- C7: the reconnector schedules attempt `n` (numbered from 1, so `n` is the
incremented counter) after `reconnectDelay * 2 ^ (n - 1)` ms; once the counter
has reached `maxReconnectAttempts` no reconnect is scheduled; a successful
reconnect resets the counter to zero; and `disconnect()` zeroes the maximum
attempt count before closing the socket, so no reconnect is ever scheduled on
any trace of events after an explicit disconnect. -/
theorem reconnect_backoff_policy :
    (∀ s : BankClientState, s.reconnectAttempts < s.maxReconnectAttempts →
        (stepClient s ClientEvent.wsClose).2 =
          some (s.reconnectDelay * 2 ^ (s.reconnectAttempts + 1 - 1)) ∧
        (stepClient s ClientEvent.wsClose).1.reconnectAttempts =
          s.reconnectAttempts + 1) ∧
    (∀ s : BankClientState, s.maxReconnectAttempts ≤ s.reconnectAttempts →
        (stepClient s ClientEvent.wsClose).2 = none) ∧
    (∀ s : BankClientState,
        (stepClient s ClientEvent.initSucceeded).1.reconnectAttempts = 0) ∧
    (∀ s : BankClientState,
        (stepClient s ClientEvent.disconnectCall).1.maxReconnectAttempts = 0) ∧
    (∀ (s : BankClientState) (evs : List ClientEvent),
        ∀ d ∈ runClient (stepClient s ClientEvent.disconnectCall).1 evs, d = none) := by
  refine ⟨?_, ?_, fun s => rfl, fun s => rfl, ?_⟩
  · intro s h
    unfold stepClient attemptReconnect
    rw [if_neg (not_le.mpr h)]
    exact ⟨rfl, rfl⟩
  · intro s h
    unfold stepClient attemptReconnect
    rw [if_pos h]
  · intro s evs
    exact runClient_none_of_max_zero evs _ rfl

/-- Witness for C7: from the authenticated client (0 attempts, max 5, base
3000 ms) a close schedules attempt 1 after 3000 ms; with the counter at the
maximum nothing is scheduled; a successful reconnect resets the counter; and
after `disconnect()` two further closes schedule nothing. -/
theorem reconnect_backoff_policy_witness :
    (authedClient.reconnectAttempts < authedClient.maxReconnectAttempts ∧
      (stepClient authedClient ClientEvent.wsClose).2 =
        some (authedClient.reconnectDelay * 2 ^ (authedClient.reconnectAttempts + 1 - 1)) ∧
      (stepClient authedClient ClientEvent.wsClose).1.reconnectAttempts =
        authedClient.reconnectAttempts + 1) ∧
    (({ authedClient with reconnectAttempts := 5 } : BankClientState).maxReconnectAttempts ≤
        ({ authedClient with reconnectAttempts := 5 } : BankClientState).reconnectAttempts ∧
      (stepClient { authedClient with reconnectAttempts := 5 } ClientEvent.wsClose).2 = none) ∧
    (stepClient { authedClient with reconnectAttempts := 3 }
        ClientEvent.initSucceeded).1.reconnectAttempts = 0 ∧
    (stepClient authedClient ClientEvent.disconnectCall).1.maxReconnectAttempts = 0 ∧
    (∀ d ∈ runClient (stepClient authedClient ClientEvent.disconnectCall).1
        [ClientEvent.wsClose, ClientEvent.wsClose], d = none) := by
  obtain ⟨h1, h2, h3, h4, h5⟩ := reconnect_backoff_policy
  exact ⟨⟨by decide, h1 authedClient (by decide)⟩,
    ⟨by decide, h2 _ (by decide)⟩,
    h3 _,
    h4 _,
    h5 authedClient [ClientEvent.wsClose, ClientEvent.wsClose]⟩

/-- Witness for the amended C5 at a concrete input: marking alice's active
debt defaulted is an allowed `active → defaulted` transition. -/
theorem debt_status_transitions_witness :
    ((dbGarnish.debts.map (fun x => x.id)).Nodup ∧
      statusOf dbGarnish 1 = some DebtStatus.active ∧
      statusOf (applyOp dbGarnish (Op.markDefault 1)) 1 = some DebtStatus.defaulted) ∧
    (debtTransAllowed DebtStatus.active DebtStatus.defaulted ∧
      (DebtStatus.active = DebtStatus.defaulted →
        DebtStatus.defaulted = DebtStatus.defaulted ∨
          (DebtStatus.defaulted = DebtStatus.paid ∧
            ∃ b amt now, Op.markDefault 1 = Op.repay b 1 amt now))) := by
  refine ⟨⟨by decide, by decide, by decide⟩, ?_⟩
  exact debt_status_transitions dbGarnish (Op.markDefault 1) 1 DebtStatus.active
    DebtStatus.defaulted (by decide) (by decide) (by decide)

section BorrowLemmas

/-- A fully served request draws nothing further. -/
theorem allocate_zero (vs : List Vouch) : allocate vs 0 = [] := by
  cases vs <;> rfl

/-- The greedy allocation draws exactly the requested principal whenever the
request does not exceed the (signed) available credit of the walked list. -/
theorem allocate_sum : ∀ (vs : List Vouch) (R : Nat),
    (R : Int) ≤ availableCredit vs →
    ((allocate vs R).map (fun e => e.2)).sum = R := by
  intro vs
  induction vs with
  | nil =>
    intro R h
    have h0 : availableCredit ([] : List Vouch) = 0 := rfl
    rw [h0] at h
    have : R = 0 := by omega
    rw [this]
    rfl
  | cons v t ih =>
    intro R h
    have hAC : availableCredit (v :: t) =
        ((v.limit_amount : Int) - (v.current_usage : Int)) + availableCredit t := by
      unfold availableCredit
      rw [List.map_cons, List.sum_cons]
    rw [hAC] at h
    unfold allocate
    by_cases hR : R = 0
    · rw [if_pos hR, hR]
      rfl
    · rw [if_neg hR]
      by_cases hv : vouchAvailable v = 0
      · rw [if_pos hv]
        apply ih
        unfold vouchAvailable at hv
        omega
      · rw [if_neg hv]
        rw [List.map_cons, List.sum_cons]
        by_cases hx : R ≤ vouchAvailable v
        · have h0 : R - min R (vouchAvailable v) = 0 := by omega
          rw [h0, allocate_zero]
          simp only [List.map_nil, List.sum_nil]
          omega
        · have hrec := ih (R - min R (vouchAvailable v)) (by
            unfold vouchAvailable at hv hx ⊢
            omega)
          omega

/-- The vouches the allocation draws from form a sublist of the walked list. -/
theorem allocate_fst_sublist : ∀ (vs : List Vouch) (R : Nat),
    List.Sublist ((allocate vs R).map (fun e => e.1)) vs := by
  intro vs
  induction vs with
  | nil => intro R; exact List.nil_sublist _
  | cons v t ih =>
    intro R
    unfold allocate
    by_cases hR : R = 0
    · rw [if_pos hR]
      exact List.nil_sublist _
    · rw [if_neg hR]
      by_cases hv : vouchAvailable v = 0
      · rw [if_pos hv]
        exact (ih R).cons v
      · rw [if_neg hv]
        rw [List.map_cons]
        exact (ih _).cons₂ v

theorem allocAmt_cons (e : Vouch × Nat) (al : List (Vouch × Nat)) (vid : Nat) :
    allocAmt (e :: al) vid = (if e.1.id = vid then e.2 else 0) + allocAmt al vid := by
  unfold allocAmt
  by_cases h : e.1.id = vid
  · simp [List.filter_cons, h]
  · simp [List.filter_cons, h]

theorem allocAmt_eq_zero_of_not_mem (al : List (Vouch × Nat)) (vid : Nat)
    (h : vid ∉ al.map (fun e => e.1.id)) : allocAmt al vid = 0 := by
  induction al with
  | nil => rfl
  | cons e t ih =>
    rw [List.map_cons, List.mem_cons] at h
    push_neg at h
    rw [allocAmt_cons, if_neg (fun he => h.1 he.symm), ih h.2]

/-- Mapping a pointwise-identity function leaves a list unchanged. -/
theorem map_self_of_eq {α : Type} (f : α → α) :
    ∀ (l : List α), (∀ a, f a = a) → l.map f = l := by
  intro l h
  induction l with
  | nil => rfl
  | cons a t ih => rw [List.map_cons, h a, ih]

/-- With pairwise-distinct drawn-vouch ids, the per-row usage updates of the
allocation loop amount to adding, rowwise, the amount drawn from that row. -/
theorem applyAlloc_eq_map : ∀ (al : List (Vouch × Nat)) (vs : List Vouch),
    (al.map (fun e => e.1.id)).Nodup →
    applyAlloc vs al = vs.map (fun v =>
      { v with current_usage := v.current_usage + allocAmt al v.id }) := by
  intro al
  induction al with
  | nil =>
    intro vs _
    show vs = _
    exact (map_self_of_eq _ vs (fun v => rfl)).symm
  | cons e t ih =>
    intro vs hnd
    rw [List.map_cons, List.nodup_cons] at hnd
    show applyAlloc (bumpUsage vs e.1.id e.2) t = _
    rw [ih _ hnd.2]
    unfold bumpUsage
    rw [List.map_map]
    apply List.map_congr_left
    intro v _
    by_cases hv : v.id = e.1.id
    · have h0 : allocAmt t v.id = 0 :=
        allocAmt_eq_zero_of_not_mem t v.id (hv ▸ hnd.1)
      rw [Function.comp_apply, if_pos hv]
      show ({ v with current_usage := v.current_usage + e.2 + allocAmt t v.id } : Vouch) = _
      rw [allocAmt_cons, if_pos hv.symm, h0]
      simp only [Nat.add_zero]
    · rw [Function.comp_apply, if_neg hv]
      show ({ v with current_usage := v.current_usage + allocAmt t v.id } : Vouch) = _
      rw [allocAmt_cons, if_neg (fun he => hv he.symm)]
      simp only [Nat.zero_add]

theorem map_enumFrom_snd {α β : Type} (f : α → β) :
    ∀ (al : List α) (n : Nat),
      (List.enumFrom n al).map (fun e => f e.2) = al.map f := by
  intro al
  induction al with
  | nil => intro n; rfl
  | cons a t ih => intro n; simp [List.enumFrom, ih]

/-- The inserted debt rows carry exactly the allocation's drawn amounts as
their original amounts. -/
theorem debtsFromAlloc_originals (b : String) (al : List (Vouch × Nat)) (dueMs nextId : Nat) :
    (debtsFromAlloc b al dueMs nextId).map (fun d => d.original_amount) =
      al.map (fun e => e.2) := by
  unfold debtsFromAlloc
  rw [List.map_map]
  exact map_enumFrom_snd (fun e => e.2) al 0

theorem debtsFromAlloc_eq_nil_iff (b : String) (al : List (Vouch × Nat)) (dueMs nextId : Nat) :
    debtsFromAlloc b al dueMs nextId = [] ↔ al = [] := by
  unfold debtsFromAlloc
  cases al <;> simp [List.enum, List.enumFrom]

/-- The stable sort of the active vouches is a permutation of them. -/
theorem sortVouches_perm (db : DB) (borrower : String) :
    List.Perm (sortVouchesByLimitDesc (activeVouchesFor db borrower))
      (activeVouchesFor db borrower) := List.perm_insertionSort _ _

/-- Sorting does not change the summed available credit. -/
theorem availableCredit_sort (db : DB) (borrower : String) :
    availableCredit (sortVouchesByLimitDesc (activeVouchesFor db borrower)) =
      availableCredit (activeVouchesFor db borrower) := by
  unfold availableCredit
  exact List.Perm.sum_eq ((sortVouches_perm db borrower).map _)

/-- With pairwise-distinct vouch ids in the store, the vouches an allocation
draws on have pairwise-distinct ids. -/
theorem borrowAlloc_ids_nodup (db : DB) (borrower : String) (R : Nat)
    (hvnodup : (db.vouches.map (fun v => v.id)).Nodup) :
    ((borrowAlloc db borrower R).map (fun e => e.1.id)).Nodup := by
  have h1 : List.Sublist
      ((allocate (sortVouchesByLimitDesc (activeVouchesFor db borrower)) R).map
        (fun e => e.1.id))
      ((sortVouchesByLimitDesc (activeVouchesFor db borrower)).map (fun v => v.id)) := by
    have hs := List.Sublist.map (fun v : Vouch => v.id)
      (allocate_fst_sublist (sortVouchesByLimitDesc (activeVouchesFor db borrower)) R)
    rw [List.map_map] at hs
    exact hs
  have hsubactive : List.Sublist (activeVouchesFor db borrower) db.vouches :=
    List.filter_sublist db.vouches
  have h2 : ((sortVouchesByLimitDesc (activeVouchesFor db borrower)).map
      (fun v => v.id)).Nodup := by
    refine (List.Perm.nodup_iff ((sortVouches_perm db borrower).map (fun v : Vouch => v.id))).mpr ?_
    exact List.Nodup.sublist (hsubactive.map (fun v : Vouch => v.id)) hvnodup
  exact List.Nodup.sublist h1 h2

/-- The writes of a successful borrow: debts appended, each drawn vouch's
usage bumped by the amount drawn, and the created principals summing to the
request. -/
theorem borrow_writes (db : DB) (borrower : String) (R dueMs nextId : Nat)
    (hR : 1 ≤ R) (hvnodup : (db.vouches.map (fun v => v.id)).Nodup)
    (hle : (R : Int) ≤ availableCredit (activeVouchesFor db borrower)) :
    (borrow db borrower R dueMs nextId).2.success = true ∧
    (borrow db borrower R dueMs nextId).2.debts =
      debtsFromAlloc borrower (borrowAlloc db borrower R) dueMs nextId ∧
    (((borrow db borrower R dueMs nextId).2.debts).map
      (fun d => d.original_amount)).sum = R ∧
    (borrow db borrower R dueMs nextId).1.debts =
      db.debts ++ (borrow db borrower R dueMs nextId).2.debts ∧
    (borrow db borrower R dueMs nextId).1.vouches =
      db.vouches.map (fun v =>
        { v with current_usage :=
            v.current_usage + allocAmt (borrowAlloc db borrower R) v.id }) := by
  have hle2 : (R : Int) ≤
      availableCredit (sortVouchesByLimitDesc (activeVouchesFor db borrower)) := by
    rw [availableCredit_sort]
    exact hle
  have hsum := allocate_sum _ R hle2
  have halnil : allocate (sortVouchesByLimitDesc (activeVouchesFor db borrower)) R ≠ [] := by
    intro hnil
    rw [hnil] at hsum
    simp at hsum
    omega
  have hsorted_ne : ¬(sortVouchesByLimitDesc (activeVouchesFor db borrower)).isEmpty = true := by
    intro hemp
    rw [List.isEmpty_eq_true] at hemp
    rw [hemp] at halnil
    exact halnil rfl
  have hnotgt : ¬((R : Int) >
      availableCredit (sortVouchesByLimitDesc (activeVouchesFor db borrower))) :=
    not_lt.mpr hle2
  have halnd := borrowAlloc_ids_nodup db borrower R hvnodup
  have hdne : ¬(debtsFromAlloc borrower
      (allocate (sortVouchesByLimitDesc (activeVouchesFor db borrower)) R)
      dueMs nextId).isEmpty = true := by
    intro hemp
    rw [List.isEmpty_eq_true, debtsFromAlloc_eq_nil_iff] at hemp
    exact halnil hemp
  unfold borrow
  dsimp only
  rw [if_neg hsorted_ne, if_neg hnotgt, if_neg hdne]
  dsimp only
  refine ⟨rfl, rfl, ?_, rfl, ?_⟩
  · rw [debtsFromAlloc_originals]
    exact hsum
  · exact applyAlloc_eq_map _ db.vouches halnd

/-- An over-limit borrow writes nothing and reports which of the two errors
applies. -/
theorem borrow_reject (db : DB) (borrower : String) (R dueMs nextId : Nat)
    (hgt : (R : Int) > availableCredit (activeVouchesFor db borrower)) :
    (borrow db borrower R dueMs nextId).1 = db ∧
    (borrow db borrower R dueMs nextId).2.debts = [] ∧
    (borrow db borrower R dueMs nextId).2.err =
      some (if activeVouchesFor db borrower = [] then BorrowError.noVouches
        else BorrowError.insufficientCredit) := by
  unfold borrow
  dsimp only
  by_cases hemp : (sortVouchesByLimitDesc (activeVouchesFor db borrower)).isEmpty = true
  · rw [if_pos hemp]
    rw [List.isEmpty_eq_true] at hemp
    have hfemp : activeVouchesFor db borrower = [] := by
      have hp := (sortVouches_perm db borrower).symm
      rw [hemp] at hp
      exact List.Perm.eq_nil hp
    refine ⟨rfl, rfl, ?_⟩
    rw [if_pos hfemp]
  · rw [if_neg hemp]
    rw [if_pos (by rw [availableCredit_sort]; exact hgt)]
    have hfne : ¬(activeVouchesFor db borrower = []) := by
      intro hfe
      rw [List.isEmpty_eq_true] at hemp
      apply hemp
      rw [hfe]
      rfl
    refine ⟨rfl, rfl, ?_⟩
    rw [if_neg hfne]

end BorrowLemmas

/-- C2 counterexample: the claim promises an "insufficient credit" error
whenever the request exceeds the sum of remaining capacities, but a borrower
with no vouches at all (sum 0, request 5) gets the "No vouches available"
error instead. -/
theorem borrow_insufficient_error_cex :
    (5 : Int) > availableCredit (activeVouchesFor dbOneUser userAlice) ∧
    (borrow dbOneUser userAlice 5 0 10).2.err = some BorrowError.noVouches ∧
    (borrow dbOneUser userAlice 5 0 10).2.err ≠ some BorrowError.insufficientCredit ∧
    (borrow dbOneUser userAlice 5 0 10).2.debts = [] ∧
    (borrow dbOneUser userAlice 5 0 10).1 = dbOneUser := by
  exact ⟨by decide, by decide, by decide, by decide, by decide⟩

/-- C2 (amended): when the requested principal `R` is at most the sum over the
borrower's active vouches of `limit - usage`, `borrow` creates exactly the
debts of the greedy allocation over the vouches sorted biggest-limit-first,
their original amounts summing to `R`, and bumps each drawn vouch's usage by
the amount drawn; when `R` exceeds that sum it creates no debts and leaves the
store unchanged, returning the "insufficient credit" error when the borrower
has at least one active vouch and the "no vouches available" error when they
have none. -/
theorem borrow_allocation (db : DB) (borrower : String) (R dueMs nextId : Nat)
    (hR : 1 ≤ R)
    (hvnodup : (db.vouches.map (fun v => v.id)).Nodup) :
    ((R : Int) ≤ availableCredit (activeVouchesFor db borrower) →
      (borrow db borrower R dueMs nextId).2.success = true ∧
      (borrow db borrower R dueMs nextId).2.debts =
        debtsFromAlloc borrower (borrowAlloc db borrower R) dueMs nextId ∧
      (((borrow db borrower R dueMs nextId).2.debts).map
        (fun d => d.original_amount)).sum = R ∧
      (borrow db borrower R dueMs nextId).1.debts =
        db.debts ++ (borrow db borrower R dueMs nextId).2.debts ∧
      (borrow db borrower R dueMs nextId).1.vouches =
        db.vouches.map (fun v =>
          { v with current_usage :=
              v.current_usage + allocAmt (borrowAlloc db borrower R) v.id })) ∧
    ((R : Int) > availableCredit (activeVouchesFor db borrower) →
      (borrow db borrower R dueMs nextId).1 = db ∧
      (borrow db borrower R dueMs nextId).2.debts = [] ∧
      (borrow db borrower R dueMs nextId).2.err =
        some (if activeVouchesFor db borrower = [] then BorrowError.noVouches
          else BorrowError.insufficientCredit)) :=
  ⟨fun hle => borrow_writes db borrower R dueMs nextId hR hvnodup hle,
   fun hgt => borrow_reject db borrower R dueMs nextId hgt⟩

section RoundTripLemmas

/-- With pairwise-distinct keys, two members with the same key are equal. -/
theorem mem_eq_of_nodup_map {α β : Type} (key : α → β) :
    ∀ {l : List α}, (l.map key).Nodup →
      ∀ {x y : α}, x ∈ l → y ∈ l → key x = key y → x = y := by
  intro l
  induction l with
  | nil => intro _ x y hx _ _; cases hx
  | cons a t ih =>
    intro hnd x y hx hy h
    rw [List.map_cons, List.nodup_cons] at hnd
    rcases List.mem_cons.mp hx with h1 | h1 <;> rcases List.mem_cons.mp hy with h2 | h2
    · rw [h1, h2]
    · subst h1
      exact absurd (h ▸ List.mem_map_of_mem key h2) hnd.1
    · subst h2
      exact absurd (h ▸ List.mem_map_of_mem key h1) hnd.1
    · exact ih hnd.2 h1 h2 h

theorem mem_enumFrom_facts {α : Type} :
    ∀ (l : List α) (n : Nat) (p : Nat × α), p ∈ List.enumFrom n l → n ≤ p.1 ∧ p.2 ∈ l := by
  intro l
  induction l with
  | nil => intro n p hp; cases hp
  | cons a t ih =>
    intro n p hp
    rw [show List.enumFrom n (a :: t) = (n, a) :: List.enumFrom (n + 1) t from rfl] at hp
    rcases List.mem_cons.mp hp with h | h
    · subst h
      exact ⟨Nat.le_refl n, List.mem_cons_self a t⟩
    · obtain ⟨h1, h2⟩ := ih (n + 1) p h
      exact ⟨by omega, List.mem_cons_of_mem a h2⟩

theorem enumFrom_plus_nodup {α : Type} (c : Nat) :
    ∀ (l : List α) (n : Nat), ((List.enumFrom n l).map (fun p => c + p.1)).Nodup := by
  intro l
  induction l with
  | nil => intro n; exact List.nodup_nil
  | cons a t ih =>
    intro n
    rw [show List.enumFrom n (a :: t) = (n, a) :: List.enumFrom (n + 1) t from rfl]
    rw [List.map_cons, List.nodup_cons]
    refine ⟨?_, ih (n + 1)⟩
    intro hmem
    obtain ⟨p, hp, hq⟩ := List.mem_map.mp hmem
    have := (mem_enumFrom_facts t (n + 1) p hp).1
    omega

/-- Every amount the greedy allocation draws is positive. -/
theorem allocate_pos : ∀ (vs : List Vouch) (R : Nat), ∀ e ∈ allocate vs R, 1 ≤ e.2 := by
  intro vs
  induction vs with
  | nil => intro R e he; cases he
  | cons v t ih =>
    intro R e he
    unfold allocate at he
    by_cases hR : R = 0
    · rw [if_pos hR] at he
      cases he
    · rw [if_neg hR] at he
      by_cases hv : vouchAvailable v = 0
      · rw [if_pos hv] at he
        exact ih R e he
      · rw [if_neg hv] at he
        rcases List.mem_cons.mp he with h | h
        · subst h
          show 1 ≤ min R (vouchAvailable v)
          omega
        · exact ih _ e h

/-- With pairwise-distinct drawn ids, the total drawn from a drawn vouch is
that entry's amount. -/
theorem allocAmt_of_mem_nodup : ∀ (al : List (Vouch × Nat)),
    ((al.map (fun e => e.1.id)).Nodup) → ∀ e ∈ al, allocAmt al e.1.id = e.2 := by
  intro al
  induction al with
  | nil => intro _ e he; cases he
  | cons x t ih =>
    intro hnd e he
    rw [List.map_cons, List.nodup_cons] at hnd
    rw [allocAmt_cons]
    rcases List.mem_cons.mp he with h | h
    · subst h
      rw [if_pos rfl, allocAmt_eq_zero_of_not_mem t e.1.id hnd.1]
      omega
    · have hne : x.1.id ≠ e.1.id := fun hx => hnd.1 (hx ▸ List.mem_map_of_mem _ h)
      rw [if_neg hne, ih hnd.2 e h]
      omega

theorem mem_allocate_vouch {vs : List Vouch} {R : Nat} {e : Vouch × Nat}
    (h : e ∈ allocate vs R) : e.1 ∈ vs :=
  (allocate_fst_sublist vs R).subset (List.mem_map_of_mem (fun e => e.1) h)

theorem mem_debtsFromAlloc {b : String} {al : List (Vouch × Nat)} {dueMs nextId : Nat}
    {nd : Debt} (h : nd ∈ debtsFromAlloc b al dueMs nextId) :
    ∃ p : Nat × (Vouch × Nat), p ∈ List.enumFrom 0 al ∧
      nd = mkDebt b p.2.1 p.2.2 dueMs (nextId + p.1) := by
  unfold debtsFromAlloc at h
  obtain ⟨p, hp, hq⟩ := List.mem_map.mp h
  exact ⟨p, hp, hq.symm⟩

/-- The fields every freshly created debt row carries. -/
theorem debtsFromAlloc_fields {b : String} {al : List (Vouch × Nat)} {dueMs nextId : Nat}
    {nd : Debt} (h : nd ∈ debtsFromAlloc b al dueMs nextId) :
    ∃ e ∈ al, nd.borrower_address = b ∧ nd.vouch_id = some e.1.id ∧
      nd.original_amount = e.2 ∧ nd.amount_owed = e.2 ∧ nd.status = DebtStatus.active ∧
      nd.paid_at = none ∧ nextId ≤ nd.id := by
  obtain ⟨p, hp, rfl⟩ := mem_debtsFromAlloc h
  obtain ⟨hn, hmem⟩ := mem_enumFrom_facts al 0 p hp
  exact ⟨p.2, hmem, rfl, rfl, rfl, rfl, rfl, rfl, by show nextId ≤ nextId + p.1; omega⟩

theorem debtsFromAlloc_ids_nodup (b : String) (al : List (Vouch × Nat)) (dueMs nextId : Nat) :
    ((debtsFromAlloc b al dueMs nextId).map (fun d => d.id)).Nodup := by
  unfold debtsFromAlloc
  rw [List.map_map]
  have hfn : ((fun d : Debt => d.id) ∘ (fun e : Nat × (Vouch × Nat) =>
      mkDebt b e.2.1 e.2.2 dueMs (nextId + e.1))) = fun p => nextId + p.1 := rfl
  rw [hfn]
  exact enumFrom_plus_nodup nextId al 0

/-- Two created debts drawing on the same vouch are the same debt. -/
theorem debtsFromAlloc_vouch_inj {b : String} {al : List (Vouch × Nat)} {dueMs nextId : Nat}
    (hnd : (al.map (fun e => e.1.id)).Nodup) :
    ∀ nd ∈ debtsFromAlloc b al dueMs nextId, ∀ nd2 ∈ debtsFromAlloc b al dueMs nextId,
      nd.vouch_id = nd2.vouch_id → nd.id = nd2.id := by
  intro nd h nd2 h2 hv
  obtain ⟨p, hp, rfl⟩ := mem_debtsFromAlloc h
  obtain ⟨q, hq, rfl⟩ := mem_debtsFromAlloc h2
  have hv2 : (some p.2.1.id : Option Nat) = some q.2.1.id := hv
  have hkey : p.2.1.id = q.2.1.id := Option.some.inj hv2
  have hmapnd : ((List.enumFrom 0 al).map (fun r : Nat × (Vouch × Nat) => r.2.1.id)).Nodup := by
    rw [map_enumFrom_snd (fun e : Vouch × Nat => e.1.id) al 0]
    exact hnd
  have hpq : p = q := mem_eq_of_nodup_map (fun r : Nat × (Vouch × Nat) => r.2.1.id)
    hmapnd hp hq hkey
  rw [hpq]

theorem vouches_setDebt (db : DB) (j : Nat) (f : Debt → Debt) :
    (setDebt db j f).vouches = db.vouches := rfl

theorem vouches_appendPayment (db : DB) (p : Payment) :
    (appendPayment db p).vouches = db.vouches := rfl

theorem vouches_setStripped (db : DB) (a : String) (bl : Bool) :
    (setStripped db a bl).vouches = db.vouches := rfl

theorem vouches_releaseVouch_congr (X Y : DB) (h : X.vouches = Y.vouches)
    (v : Option Nat) (o : Nat) :
    (releaseVouch X v o).vouches = (releaseVouch Y v o).vouches := by
  unfold releaseVouch
  cases v with
  | none => exact h
  | some vid =>
    dsimp only
    rw [h]
    cases hf : Y.vouches.find? (fun w => decide (w.id = vid)) with
    | none => exact h
    | some w => rfl

theorem vouches_releaseVouch_setDebt (db : DB) (j : Nat) (f : Debt → Debt)
    (v : Option Nat) (o : Nat) :
    (releaseVouch (setDebt db j f) v o).vouches = (releaseVouch db v o).vouches :=
  vouches_releaseVouch_congr (setDebt db j f) db rfl v o

theorem vouches_releaseVouch_appendPayment (db : DB) (p : Payment)
    (v : Option Nat) (o : Nat) :
    (releaseVouch (appendPayment db p) v o).vouches = (releaseVouch db v o).vouches :=
  vouches_releaseVouch_congr (appendPayment db p) db rfl v o

theorem vouches_repayFullBlock (db : DB) (b : String) (debt : Debt) (debtId now : Nat) :
    (repayFullBlock db b debt debtId now).vouches =
      (releaseVouch db debt.vouch_id debt.original_amount).vouches := by
  unfold repayFullBlock
  dsimp only
  rw [vouches_setDebt]
  split
  · exact (updateCreditScore_preserves _ _ _ _).2.1
  · rfl

theorem vouches_garnishPaidBlock (db : DB) (ua : String) (d : Debt) (now : Nat) :
    (garnishPaidBlock db ua d now).vouches =
      (releaseVouch db d.vouch_id d.original_amount).vouches := by
  unfold garnishPaidBlock
  dsimp only
  split <;> split <;>
    first
      | (rw [vouches_setStripped, (updateCreditScore_preserves _ _ _ _).2.1]
         exact vouches_releaseVouch_setDebt db d.id _ _ _)
      | (rw [(updateCreditScore_preserves _ _ _ _).2.1]
         exact vouches_releaseVouch_setDebt db d.id _ _ _)
      | (rw [vouches_setStripped]
         exact vouches_releaseVouch_setDebt db d.id _ _ _)
      | exact vouches_releaseVouch_setDebt db d.id _ _ _

theorem usageOf_congr (X Y : DB) (h : X.vouches = Y.vouches) (vid : Nat) :
    usageOf X vid = usageOf Y vid := by
  unfold usageOf
  rw [h]

theorem usageOf_releaseVouch_none (db : DB) (o vid : Nat) :
    usageOf (releaseVouch db none o) vid = usageOf db vid := rfl

theorem usageOf_releaseVouch_self (db : DB) (w o : Nat) :
    usageOf (releaseVouch db (some w) o) w = (usageOf db w).map (fun u => u - o) := by
  unfold releaseVouch
  dsimp only
  cases hf : db.vouches.find? (fun v => decide (v.id = w)) with
  | none =>
    dsimp only
    unfold usageOf
    rw [hf]
    rfl
  | some v0 =>
    have hv0 : v0.id = w := by
      have := List.find?_some hf
      simpa using this
    dsimp only
    unfold usageOf
    dsimp only
    rw [find?_map_pres (fun v => decide (v.id = w)) _
      (by intro x; by_cases h : x.id = w <;> simp [h]) db.vouches]
    rw [hf]
    simp [Option.map_some', hv0]

theorem usageOf_releaseVouch_ne (db : DB) (w o vid : Nat) (h : vid ≠ w) :
    usageOf (releaseVouch db (some w) o) vid = usageOf db vid := by
  unfold releaseVouch
  dsimp only
  cases hf : db.vouches.find? (fun v => decide (v.id = w)) with
  | none => rfl
  | some v0 =>
    dsimp only
    unfold usageOf
    dsimp only
    rw [find?_map_pres (fun v => decide (v.id = vid)) _
      (by intro x; by_cases hx : x.id = w <;> simp [hx]) db.vouches]
    cases hg : db.vouches.find? (fun v => decide (v.id = vid)) with
    | none => rfl
    | some v1 =>
      have hv1 : v1.id = vid := by
        have := List.find?_some hg
        simpa using this
      have hne : ¬(v1.id = w) := by
        rw [hv1]
        exact h
      simp [Option.map_some', hne]

theorem findDebt_of_debts_map (X Y : DB) (g : Debt → Debt) (hl : Y.debts = X.debts.map g)
    (hid : ∀ d, (g d).id = d.id) (j : Nat) :
    findDebt Y j = (findDebt X j).map g := by
  unfold findDebt
  rw [hl]
  exact find?_map_pres _ g (by intro x; simp [hid]) X.debts

theorem ids_map_of_preserve (l : List Debt) (g : Debt → Debt) (hid : ∀ d, (g d).id = d.id) :
    (l.map g).map (fun d => d.id) = l.map (fun d => d.id) := by
  rw [List.map_map]
  apply List.map_congr_left
  intro d _
  exact hid d

/-- Fully paying one not-yet-paid debt row — marking it paid with zero owed and
releasing the vouch it draws on by its original amount — preserves the
round-trip invariant. -/
theorem RoundTripInv_full_step (db0 : DB) (nds : List Debt) (X Y : DB) (debt : Debt) (t : Nat)
    (hndv : ∀ nd ∈ nds, ∀ nd2 ∈ nds, nd.vouch_id = nd2.vouch_id → nd.id = nd2.id)
    (hmem : debt ∈ X.debts) (hnp : debt.status ≠ DebtStatus.paid)
    (hl : Y.debts = X.debts.map (fun x =>
      if x.id = debt.id then
        { x with amount_owed := 0, status := DebtStatus.paid, paid_at := some t }
      else x))
    (hv : Y.vouches = (releaseVouch X debt.vouch_id debt.original_amount).vouches)
    (hInv : RoundTripInv db0 nds X) :
    RoundTripInv db0 nds Y := by
  obtain ⟨hnd, hA, hB, hC⟩ := hInv
  have hgid : ∀ d : Debt,
      (if d.id = debt.id then
        ({ d with amount_owed := 0, status := DebtStatus.paid, paid_at := some t } : Debt)
      else d).id = d.id := by
    intro d
    by_cases h : d.id = debt.id <;> simp [h]
  have hfind : ∀ j, findDebt Y j = (findDebt X j).map (fun x =>
      if x.id = debt.id then
        { x with amount_owed := 0, status := DebtStatus.paid, paid_at := some t }
      else x) :=
    findDebt_of_debts_map X Y _ hl hgid
  refine ⟨?_, ?_, ?_, ?_⟩
  · rw [hl, ids_map_of_preserve _ _ hgid]
    exact hnd
  · intro nd hndmem
    obtain ⟨d, hfd, htr⟩ := hA nd hndmem
    refine ⟨_, by rw [hfind nd.id, hfd]; rfl, ?_⟩
    dsimp only
    by_cases hd : d.id = debt.id
    · rw [if_pos hd]
      obtain ⟨h1, h2, h3, h4, h5, h6⟩ := htr
      exact ⟨h1, h2, h3, h4, by simp, Or.inr rfl⟩
    · rw [if_neg hd]
      exact htr
  · intro nd hndmem vid hvid
    obtain ⟨u0, hu0, d, hfd, husage⟩ := hB nd hndmem vid hvid
    obtain ⟨d2, hfd2, htr⟩ := hA nd hndmem
    have hd2 : d2 = d := by
      rw [hfd] at hfd2
      exact (Option.some.inj hfd2).symm
    subst hd2
    refine ⟨u0, hu0, ?_⟩
    by_cases hdid : debt.id = nd.id
    · have hdmemX : d2 ∈ X.debts := findDebt_mem hfd
      have hdi : d2.id = nd.id := findDebt_id hfd
      have hdeq : debt = d2 := mem_eq_of_nodup_ids hnd hmem hdmemX (by rw [hdid, hdi])
      have hdp : d2.id = debt.id := by rw [hdi, hdid]
      refine ⟨_, by rw [hfind nd.id, hfd]; rfl, ?_⟩
      dsimp only
      rw [if_pos hdp]
      have hstpaid : ({ d2 with
          amount_owed := 0, status := DebtStatus.paid, paid_at := some t } : Debt).status =
            DebtStatus.paid := rfl
      rw [if_pos hstpaid]
      have hvd : debt.vouch_id = some vid := by rw [hdeq, htr.2.2.1, hvid]
      have hod : debt.original_amount = nd.original_amount := by rw [hdeq, htr.2.2.2.1]
      rw [usageOf_congr Y (releaseVouch X debt.vouch_id debt.original_amount) hv vid]
      rw [hvd, hod]
      rw [usageOf_releaseVouch_self]
      rw [husage]
      have hdnp : d2.status ≠ DebtStatus.paid := by
        rw [← hdeq]
        exact hnp
      rw [if_neg hdnp]
      rw [Option.map_some']
      exact congrArg some (by omega)
    · have hdi : d2.id = nd.id := findDebt_id hfd
      have hdne : d2.id ≠ debt.id := by
        rw [hdi]
        exact fun hh => hdid hh.symm
      refine ⟨d2, ?_, ?_⟩
      · rw [hfind nd.id, hfd, Option.map_some', if_neg hdne]
      · rw [usageOf_congr Y (releaseVouch X debt.vouch_id debt.original_amount) hv vid]
        cases hdv : debt.vouch_id with
        | none =>
          rw [usageOf_releaseVouch_none]
          exact husage
        | some w =>
          have hwvid : vid ≠ w := by
            by_cases hcr : ∃ nd2 ∈ nds, debt.id = nd2.id
            · obtain ⟨nd2, hnd2, hid2⟩ := hcr
              obtain ⟨d3, hfd3, htr3⟩ := hA nd2 hnd2
              have hdeq3 : debt = d3 := mem_eq_of_nodup_ids hnd hmem (findDebt_mem hfd3)
                (by rw [findDebt_id hfd3, ← hid2])
              intro hveq
              have hvv : nd.vouch_id = nd2.vouch_id := by
                rw [hvid, hveq, ← htr3.2.2.1, ← hdeq3, hdv]
              have hii := hndv nd hndmem nd2 hnd2 hvv
              exact hdid (by rw [hid2, ← hii])
            · push_neg at hcr
              have hp := hC debt hmem hcr nd hndmem
              intro hveq
              apply hnp
              apply hp
              rw [hdv, hvid, hveq]
          rw [usageOf_releaseVouch_ne X w debt.original_amount vid hwvid]
          exact husage
  · intro d2 hd2 hidne nd hndmem hveq
    rw [hl] at hd2
    obtain ⟨d, hdm, rfl⟩ := List.mem_map.mp hd2
    by_cases hdd : d.id = debt.id
    · rw [if_pos hdd]
    · rw [if_neg hdd] at hidne hveq ⊢
      exact hC d hdm hidne nd hndmem hveq

/-- A partial payment — writing a smaller, still positive owed amount onto a
not-yet-paid debt row without touching the vouches — preserves the round-trip
invariant. -/
theorem RoundTripInv_partial_step (db0 : DB) (nds : List Debt) (X Y : DB) (debt : Debt)
    (w : Nat)
    (hmem : debt ∈ X.debts) (hnp : debt.status ≠ DebtStatus.paid) (hw : ¬(w = 0))
    (hl : Y.debts = X.debts.map (fun x =>
      if x.id = debt.id then { x with amount_owed := w } else x))
    (hv : Y.vouches = X.vouches)
    (hInv : RoundTripInv db0 nds X) :
    RoundTripInv db0 nds Y := by
  obtain ⟨hnd, hA, hB, hC⟩ := hInv
  have hgid : ∀ d : Debt,
      (if d.id = debt.id then ({ d with amount_owed := w } : Debt) else d).id = d.id := by
    intro d
    by_cases h : d.id = debt.id <;> simp [h]
  have hfind : ∀ j, findDebt Y j = (findDebt X j).map (fun x =>
      if x.id = debt.id then { x with amount_owed := w } else x) :=
    findDebt_of_debts_map X Y _ hl hgid
  refine ⟨?_, ?_, ?_, ?_⟩
  · rw [hl, ids_map_of_preserve _ _ hgid]
    exact hnd
  · intro nd hndmem
    obtain ⟨d, hfd, htr⟩ := hA nd hndmem
    refine ⟨_, by rw [hfind nd.id, hfd]; rfl, ?_⟩
    dsimp only
    by_cases hd : d.id = debt.id
    · rw [if_pos hd]
      obtain ⟨h1, h2, h3, h4, h5, h6⟩ := htr
      have hdeq : debt = d := mem_eq_of_nodup_ids hnd hmem (findDebt_mem hfd) hd.symm
      have hdst : d.status ≠ DebtStatus.paid := by
        rw [← hdeq]
        exact hnp
      refine ⟨h1, h2, h3, h4, ⟨fun hp => absurd hp hdst, fun h0 => absurd h0 hw⟩, h6⟩
    · rw [if_neg hd]
      exact htr
  · intro nd hndmem vid hvid
    obtain ⟨u0, hu0, d, hfd, husage⟩ := hB nd hndmem vid hvid
    refine ⟨u0, hu0, ?_⟩
    by_cases hd : d.id = debt.id
    · refine ⟨_, by rw [hfind nd.id, hfd]; rfl, ?_⟩
      dsimp only
      rw [if_pos hd]
      show usageOf Y vid = some (u0 + if d.status = DebtStatus.paid then 0
        else nd.original_amount)
      rw [usageOf_congr Y X hv vid]
      exact husage
    · refine ⟨d, ?_, ?_⟩
      · rw [hfind nd.id, hfd, Option.map_some', if_neg hd]
      · rw [usageOf_congr Y X hv vid]
        exact husage
  · intro d2 hd2 hidne nd hndmem hveq
    rw [hl] at hd2
    obtain ⟨d, hdm, rfl⟩ := List.mem_map.mp hd2
    by_cases hdd : d.id = debt.id
    · rw [if_pos hdd] at hidne hveq ⊢
      exact hC d hdm (fun nd2 h2 => hidne nd2 h2) nd hndmem hveq
    · rw [if_neg hdd] at hidne hveq ⊢
      exact hC d hdm hidne nd hndmem hveq

/-- Manual repayment preserves the round-trip invariant, whatever debt it
targets. -/
theorem RoundTripInv_repay (db0 : DB) (nds : List Debt) (X : DB) (b2 : String)
    (j a now : Nat)
    (hndv : ∀ nd ∈ nds, ∀ nd2 ∈ nds, nd.vouch_id = nd2.vouch_id → nd.id = nd2.id)
    (hInv : RoundTripInv db0 nds X) :
    RoundTripInv db0 nds (repayDebt X b2 j a now).1 := by
  unfold repayDebt
  cases hfound : X.debts.find? (fun d => decide (d.id = j ∧ d.borrower_address = b2)) with
  | none => exact hInv
  | some debt =>
    have hdand : debt.id = j ∧ debt.borrower_address = b2 := by
      simpa using List.find?_some hfound
    have hdmem : debt ∈ X.debts := List.mem_of_find?_eq_some hfound
    dsimp only
    by_cases hpaid : debt.status = DebtStatus.paid
    · rw [if_pos hpaid]
      exact hInv
    · rw [if_neg hpaid]
      by_cases hz : debt.amount_owed - min a debt.amount_owed = 0
      · rw [if_pos hz]
        dsimp only
        refine RoundTripInv_full_step db0 nds X _ debt now hndv hdmem hpaid ?_ ?_ hInv
        · rw [debts_repayFullBlock, hdand.1]
          rfl
        · rw [vouches_repayFullBlock]
          exact vouches_releaseVouch_appendPayment X _ _ _
      · rw [if_neg hz]
        dsimp only
        refine RoundTripInv_partial_step db0 nds X _ debt
          (debt.amount_owed - min a debt.amount_owed) hdmem hpaid hz ?_ rfl hInv
        rw [hdand.1]
        rfl

/-- A garnished incoming transfer preserves the round-trip invariant, whatever
debt the garnishment engine selects. -/
theorem RoundTripInv_transfer (db0 : DB) (nds : List Debt) (X : DB) (ua : String)
    (amount now : Nat) (vc ok : Bool)
    (hndv : ∀ nd ∈ nds, ∀ nd2 ∈ nds, nd.vouch_id = nd2.vouch_id → nd.id = nd2.id)
    (hInv : RoundTripInv db0 nds X) :
    RoundTripInv db0 nds (onTransfer X ua amount now vc ok).1 := by
  unfold onTransfer
  cases hu : findUser X ua with
  | none =>
    dsimp only
    rw [if_pos rfl]
    exact hInv
  | some u =>
    dsimp only
    by_cases har : u.auto_repay_enabled = false
    · rw [if_pos har]
      exact hInv
    · rw [if_neg har]
      cases hsel : sortDebtsByDueDate (activeDebtsFor X ua) with
      | nil => exact hInv
      | cons activeDebt rest =>
        dsimp only
        have hmemsort : activeDebt ∈ sortDebtsByDueDate (activeDebtsFor X ua) := by
          rw [hsel]
          exact List.mem_cons_self _ _
        have hmemact : activeDebt ∈ activeDebtsFor X ua :=
          (List.mem_insertionSort _).mp hmemsort
        have hmf := List.mem_filter.mp hmemact
        have hmemX : activeDebt ∈ X.debts := hmf.1
        have hprops : activeDebt.borrower_address = ua ∧
            (activeDebt.status = DebtStatus.active ∨
              activeDebt.status = DebtStatus.overdue) := by
          simpa using hmf.2
        have hnp : activeDebt.status ≠ DebtStatus.paid := by
          rcases hprops.2 with h | h <;> rw [h] <;> decide
        split
        · split
          · dsimp only
            unfold garnishApply
            dsimp only
            split
            next =>
              refine RoundTripInv_full_step db0 nds X _ activeDebt now hndv hmemX hnp
                ?_ ?_ hInv
              · rw [debts_garnishPaidBlock]
                rfl
              · rw [vouches_garnishPaidBlock]
                exact vouches_releaseVouch_appendPayment X _ _ _
            next hz =>
              refine RoundTripInv_partial_step db0 nds X _ activeDebt _ hmemX hnp hz
                ?_ rfl hInv
              rfl
          · exact hInv
        · exact hInv

/-- Any sequence of repayment operations (manual repayments and incoming
transfers) preserves the round-trip invariant. -/
theorem RoundTripInv_ops (db0 : DB) (nds : List Debt)
    (hndv : ∀ nd ∈ nds, ∀ nd2 ∈ nds, nd.vouch_id = nd2.vouch_id → nd.id = nd2.id) :
    ∀ (ops : List Op) (X : DB), (∀ op ∈ ops, op.isRepayment) →
      RoundTripInv db0 nds X → RoundTripInv db0 nds (applyOps X ops) := by
  intro ops
  induction ops with
  | nil =>
    intro X _ h
    exact h
  | cons op t ih =>
    intro X hall h
    have hop := hall op (List.mem_cons_self _ _)
    have hstep : RoundTripInv db0 nds (applyOp X op) := by
      cases op with
      | repay b2 j a n => exact RoundTripInv_repay db0 nds X b2 j a n hndv h
      | transfer ua am n v ok => exact RoundTripInv_transfer db0 nds X ua am n v ok hndv h
      | sweep n => exact False.elim hop
      | markDefault j => exact False.elim hop
      | doBorrow b2 a d2 n2 => exact False.elim hop
    have hfold : applyOps X (op :: t) = applyOps (applyOp X op) t := rfl
    rw [hfold]
    exact ih (applyOp X op) (fun o ho => hall o (List.mem_cons_of_mem _ ho)) hstep

end RoundTripLemmas

/-- Witness for C2: alice, backed by vouches of 1500 (bob) and 1000 (carol),
borrows 2000; the created debts' principals sum to exactly 2000. -/
theorem borrow_allocation_witness :
    (((borrow dbTwoVouch userAlice 2000 0 100).2.debts).map
      (fun d => d.original_amount)).sum = 2000 := by
  have h := (borrow_allocation dbTwoVouch userAlice 2000 0 100
    (by decide) (by decide)).1 (by decide)
  exact h.2.2.1

/-- C3: round trip.  Borrow a principal `R` that fits the borrower's available
credit, then run any sequence of repayment operations (manual repayments and
garnished incoming transfers); once every created debt's owed amount has
reached zero, every created debt is in status 'paid' and every drawn vouch's
`current_usage` is back to its pre-borrow value — the release on full payment
is by the debt's `original_amount` (the `trackedRow`/`usageTracks` invariant),
never by a partial payment amount.  The side conditions ask for pairwise
distinct vouch and debt ids, fresh created-debt ids, and that any pre-existing
debt drawing on a drawn vouch is already paid. -/
theorem borrow_repay_roundtrip (db : DB) (b : String) (R dueMs nextId : Nat) (ops : List Op)
    (hR : 1 ≤ R)
    (hvnodup : (db.vouches.map (fun v => v.id)).Nodup)
    (hdnodup : (db.debts.map (fun d => d.id)).Nodup)
    (hfresh : ∀ d ∈ db.debts, d.id < nextId)
    (hle : (R : Int) ≤ availableCredit (activeVouchesFor db b))
    (hold : ∀ d ∈ db.debts, ∀ nd ∈ (borrow db b R dueMs nextId).2.debts,
      d.vouch_id = nd.vouch_id → d.status = DebtStatus.paid)
    (hreps : ∀ op ∈ ops, op.isRepayment)
    (hpaid : ∀ nd ∈ (borrow db b R dueMs nextId).2.debts,
      owedOf (applyOps (borrow db b R dueMs nextId).1 ops) nd.id = some 0) :
    (∀ nd ∈ (borrow db b R dueMs nextId).2.debts,
      statusOf (applyOps (borrow db b R dueMs nextId).1 ops) nd.id =
        some DebtStatus.paid) ∧
    (∀ nd ∈ (borrow db b R dueMs nextId).2.debts, ∀ vid, nd.vouch_id = some vid →
      usageOf (applyOps (borrow db b R dueMs nextId).1 ops) vid = usageOf db vid) := by
  obtain ⟨hsucc, hdbts, hsum, hdbapp, hvapp⟩ := borrow_writes db b R dueMs nextId hR hvnodup hle
  have halnd := borrowAlloc_ids_nodup db b R hvnodup
  have hndnodup : (((borrow db b R dueMs nextId).2.debts).map (fun d => d.id)).Nodup := by
    rw [hdbts]
    exact debtsFromAlloc_ids_nodup b _ dueMs nextId
  have hndlow : ∀ nd ∈ (borrow db b R dueMs nextId).2.debts, nextId ≤ nd.id := by
    intro nd hnd
    rw [hdbts] at hnd
    obtain ⟨e, he, hf⟩ := debtsFromAlloc_fields hnd
    exact hf.2.2.2.2.2.2
  have hndv : ∀ nd ∈ (borrow db b R dueMs nextId).2.debts,
      ∀ nd2 ∈ (borrow db b R dueMs nextId).2.debts,
        nd.vouch_id = nd2.vouch_id → nd.id = nd2.id := by
    intro nd h1 nd2 h2
    rw [hdbts] at h1 h2
    exact debtsFromAlloc_vouch_inj halnd nd h1 nd2 h2
  have hfindD : ∀ nd ∈ (borrow db b R dueMs nextId).2.debts,
      findDebt (borrow db b R dueMs nextId).1 nd.id = some nd := by
    intro nd hnd
    unfold findDebt
    rw [hdbapp, List.find?_append]
    have hnone : db.debts.find? (fun x => decide (x.id = nd.id)) = none := by
      rw [List.find?_eq_none]
      intro x hx
      have h1 := hfresh x hx
      have h2 := hndlow nd hnd
      intro hcontra
      have h3 : x.id = nd.id := of_decide_eq_true hcontra
      omega
    rw [hnone]
    exact find?_key_of_mem (fun d : Debt => d.id)
      ((borrow db b R dueMs nextId).2.debts) hndnodup nd hnd
  have hInv0 : RoundTripInv db ((borrow db b R dueMs nextId).2.debts)
      (borrow db b R dueMs nextId).1 := by
    refine ⟨?_, ?_, ?_, ?_⟩
    · rw [hdbapp, List.map_append, List.nodup_append]
      refine ⟨hdnodup, hndnodup, ?_⟩
      intro x hx1 hx2
      obtain ⟨d1, hd1, hq1⟩ := List.mem_map.mp hx1
      obtain ⟨d2, hd2m, hq2⟩ := List.mem_map.mp hx2
      have hl1 := hfresh d1 hd1
      have hl2 := hndlow d2 hd2m
      omega
    · intro nd hnd
      refine ⟨nd, hfindD nd hnd, ?_⟩
      rw [hdbts] at hnd
      obtain ⟨e, he, hb1, hv1, ho1, how1, hs1, hp1, hle1⟩ := debtsFromAlloc_fields hnd
      have hpos : 1 ≤ e.2 := allocate_pos _ R e he
      refine ⟨rfl, rfl, rfl, rfl, ?_, Or.inl hs1⟩
      constructor
      · intro hp
        exact absurd (hs1.symm.trans hp) (by decide)
      · intro h0
        exact absurd (how1.symm.trans h0) (by omega)
    · intro nd hnd vid hvid
      have hfnd := hfindD nd hnd
      rw [hdbts] at hnd
      obtain ⟨e, he, hb1, hv1, ho1, how1, hs1, hp1, hle1⟩ := debtsFromAlloc_fields hnd
      have hvide : vid = e.1.id := Option.some.inj (hvid.symm.trans hv1)
      have hesort : e.1 ∈ sortVouchesByLimitDesc (activeVouchesFor db b) :=
        mem_allocate_vouch he
      have heact : e.1 ∈ activeVouchesFor db b := (List.mem_insertionSort _).mp hesort
      have hevch : e.1 ∈ db.vouches := (List.mem_filter.mp heact).1
      have hfindv : db.vouches.find? (fun v => decide (v.id = e.1.id)) = some e.1 :=
        find?_key_of_mem (fun v : Vouch => v.id) db.vouches hvnodup e.1 hevch
      refine ⟨e.1.current_usage, ?_, nd, hfnd, ?_⟩
      · unfold usageOf
        rw [hvide, hfindv]
        rfl
      · have hnpd : nd.status ≠ DebtStatus.paid := by
          rw [hs1]
          decide
        rw [if_neg hnpd]
        unfold usageOf
        rw [hvapp]
        rw [find?_map_pres (fun v => decide (v.id = vid))
          (fun v => { v with current_usage := v.current_usage + allocAmt (borrowAlloc db b R) v.id })
          (fun x => rfl) db.vouches]
        rw [hvide, hfindv]
        rw [Option.map_some', Option.map_some']
        show some (e.1.current_usage + allocAmt (borrowAlloc db b R) e.1.id) =
          some (e.1.current_usage + nd.original_amount)
        rw [ho1, allocAmt_of_mem_nodup _ halnd e he]
    · intro d hd hne nd hnd hveq
      rw [hdbapp] at hd
      rcases List.mem_append.mp hd with hdo | hdn
      · exact hold d hdo nd hnd hveq
      · exact absurd rfl (hne d hdn)
  have hfinal := RoundTripInv_ops db ((borrow db b R dueMs nextId).2.debts) hndv ops
    (borrow db b R dueMs nextId).1 hreps hInv0
  obtain ⟨hndF, hAF, hBF, hCF⟩ := hfinal
  constructor
  · intro nd hnd
    obtain ⟨d, hfd, htr⟩ := hAF nd hnd
    have how : owedOf (applyOps (borrow db b R dueMs nextId).1 ops) nd.id =
        some d.amount_owed := by
      unfold owedOf
      rw [hfd]
      rfl
    have h0 : d.amount_owed = 0 := by
      have hh := (hpaid nd hnd).symm.trans how
      exact (Option.some.inj hh).symm
    have hps : d.status = DebtStatus.paid := htr.2.2.2.2.1.mpr h0
    unfold statusOf
    rw [hfd, Option.map_some', hps]
  · intro nd hnd vid hvid
    obtain ⟨u0, hu0, d, hfd, husage⟩ := hBF nd hnd vid hvid
    obtain ⟨d2, hfd2, htr⟩ := hAF nd hnd
    have hdd : d2 = d := by
      rw [hfd] at hfd2
      exact (Option.some.inj hfd2).symm
    rw [hdd] at htr
    have how : owedOf (applyOps (borrow db b R dueMs nextId).1 ops) nd.id =
        some d.amount_owed := by
      unfold owedOf
      rw [hfd]
      rfl
    have h0 : d.amount_owed = 0 := by
      have hh := (hpaid nd hnd).symm.trans how
      exact (Option.some.inj hh).symm
    have hps : d.status = DebtStatus.paid := htr.2.2.2.2.1.mpr h0
    rw [husage, if_pos hps, hu0]
    exact congrArg some (by omega)

/-- Witness for C3: alice borrows 1200 against her 1500 vouch from bob, then
manually repays the created debt (id 100) in full; the debt ends paid and the
vouch's usage is back to 0. -/
theorem borrow_repay_roundtrip_witness :
    usageOf (applyOps (borrow dbTwoVouch userAlice 1200 500 100).1
        [Op.repay userAlice 100 1200 50]) 11 = usageOf dbTwoVouch 11 ∧
    statusOf (applyOps (borrow dbTwoVouch userAlice 1200 500 100).1
        [Op.repay userAlice 100 1200 50]) 100 = some DebtStatus.paid := by
  have h := borrow_repay_roundtrip dbTwoVouch userAlice 1200 500 100
    [Op.repay userAlice 100 1200 50]
    (by decide) (by decide) (by decide) (by decide) (by decide) (by decide)
    (by
      intro op hop
      rw [List.mem_singleton] at hop
      subst hop
      trivial)
    (by decide)
  have hmem0 : exDebtRound ∈ (borrow dbTwoVouch userAlice 1200 500 100).2.debts := by decide
  constructor
  · exact h.2 _ hmem0 11 rfl
  · exact h.1 _ hmem0

end Backr
